import Mathlib

/-!
Verification of the Spiral Recap utility (`src/spiral_recapp.py`).

Modelling conventions (shallow embedding):
  - Python strings are modelled as lists of characters (`PyStr`); `strL`
    injects Lean string literals.
  - Python `bytes` values are lists of naturals below 256.
  - Python floats are modelled as exact rationals; the only divergence is
    the 2-decimal display rounding in `fmt2dp` (Python rounds the IEEE
    double; we round the exact rational half-to-even).  No claim depends
    on that display string's digits.
  - `datetime.now()` is modelled as an explicit `now` parameter.
  - Reading a file is modelled by passing `Option PyStr` (`none` models an
    unreadable file); the catch-all `except` in `load_srec` collapses the
    inner `Except` into `Option` (`none` models the `{}` fallback result).
  - `yaml.dump` / `yaml.safe_load` are modelled for the shapes of data this
    program produces: a flat mapping of scalar strings, booleans, naturals
    and lists of scalar strings, using PyYAML's block style, its plain /
    single-quoted / double-quoted scalar styles, and its escape syntax.
-/

set_option maxRecDepth 10000

abbrev PyStr := List Char

def strL (x : String) : PyStr := x.data

/-- Python whitespace as used by `str.strip` / `str.split`. -/
def isWS (c : Char) : Bool :=
  c == ' ' || c == '\t' || c == '\n' || c == '\r' || c == '\x0b' || c == '\x0c'

/-- Python `str.strip()`. -/
def pyStrip (v : PyStr) : PyStr :=
  ((v.dropWhile isWS).reverse.dropWhile isWS).reverse

/-- Maximal runs of characters satisfying `p`, dropping the rest. -/
def runsOf (p : Char → Bool) : PyStr → List PyStr
  | [] => []
  | [c] => if p c then [[c]] else []
  | c :: d :: t =>
    let r := runsOf p (d :: t)
    if p c then
      if p d then (c :: r.headD []) :: r.tail else [c] :: r
    else r

/-- Python `str.split()` (split on whitespace runs, dropping empties). -/
def splitWs (v : PyStr) : List PyStr := runsOf (fun d => !isWS d) v

/-- Leftmost occurrence index of `sep` in a string, as in Python `str.find`. -/
def findSub (sep : PyStr) : PyStr → Option Nat
  | [] => if sep.isEmpty then some 0 else none
  | c :: t => if sep.isPrefixOf (c :: t) then some 0 else (findSub sep t).map (· + 1)

/-- Python `sep in s` (substring containment). -/
def containsSub (sep v : PyStr) : Bool := (findSub sep v).isSome

/-- Python `str.split(sep, maxsplit)` for a non-empty separator. -/
def pySplit (sep : PyStr) : Nat → PyStr → List PyStr
  | 0, v => [v]
  | m + 1, v =>
    match findSub sep v with
    | none => [v]
    | some i => v.take i :: pySplit sep m (v.drop (i + sep.length))

/-- Split at every occurrence of one character (used to cut a block into lines). -/
def splitChar (c : Char) : PyStr → List PyStr
  | [] => [[]]
  | a :: t =>
    if a == c then [] :: splitChar c t
    else
      match splitChar c t with
      | h :: r => (a :: h) :: r
      | [] => [[a]]

/-- Python `str.splitlines()` for strings whose line breaks are `\n`. -/
def pySplitlines (v : PyStr) : List PyStr :=
  if v.isEmpty then []
  else
    let parts := splitChar '\n' v
    if parts.getLast? = some [] then parts.dropLast else parts

/-- Stopword set (`STOPWORDS` in the source). -/
def STOPWORDS : List PyStr :=
  [strL "the", strL "a", strL "an", strL "and", strL "or", strL "but", strL "in",
   strL "on", strL "at", strL "to", strL "for", strL "of", strL "with", strL "by",
   strL "is", strL "are", strL "was", strL "were", strL "be", strL "being", strL "been"]

/-- `\w` of the source's regex; the embedding covers the ASCII fragment. -/
def isWordChar (c : Char) : Bool := c.isAlphanum || c == '_'

/-- `re.findall(r'\b\w+\b', text)`: maximal runs of word characters. -/
def tokenizeWords (v : PyStr) : List PyStr := runsOf isWordChar v

/-- Python `str.lower()` (ASCII fragment, like the rest of the char model). -/
def toLowerPy (v : PyStr) : PyStr := v.map Char.toLower

/-- Python `str.capitalize()`: first character uppercased, rest lowercased. -/
def capitalizePy : PyStr → PyStr
  | [] => []
  | c :: t => Char.toUpper c :: t.map Char.toLower

/-- Distinct elements in order of first occurrence (key order of a `Counter`). -/
def dedupFirst (l : List PyStr) : List PyStr :=
  l.foldl (fun acc w => if w ∈ acc then acc else acc ++ [w]) []

/-- Stable insertion (an element goes in front of later elements with the
same count, preserving first-occurrence order on ties). -/
def insertByCount (x : PyStr × Nat) : List (PyStr × Nat) → List (PyStr × Nat)
  | [] => [x]
  | y :: t => if y.2 ≤ x.2 then x :: y :: t else y :: insertByCount x t

/-- Stable sort by descending count. -/
def sortByCountDesc : List (PyStr × Nat) → List (PyStr × Nat)
  | [] => []
  | x :: t => insertByCount x (sortByCountDesc t)

/-- `Counter(l).most_common(n)`: distinct elements with counts, stably sorted by
descending count (ties keep first-occurrence order), truncated to `n`. -/
def mostCommon (n : Nat) (l : List PyStr) : List (PyStr × Nat) :=
  (sortByCountDesc ((dedupFirst l).map (fun w => (w, l.count w)))).take n

/-- The motif-collection loop of `extract_motifs` (append if unseen, then
break once `max_motifs` motifs are collected). -/
def motifAccum (max_motifs : Nat) : List (PyStr × Nat) → List PyStr → List PyStr → List PyStr
  | [], motifs, _ => motifs
  | (w, _) :: rest, motifs, seen =>
    let motifs' := if w ∈ seen then motifs else motifs ++ [capitalizePy w]
    let seen' := if w ∈ seen then seen else seen ++ [w]
    if max_motifs ≤ motifs'.length then motifs'
    else motifAccum max_motifs rest motifs' seen'

/-- The `filtered` list of `extract_motifs` (source lines 26-27): lowercased
word tokens that survive the length/stopword filter. -/
def qualifyingTerms (text : PyStr) : List PyStr :=
  (tokenizeWords (toLowerPy text)).filter
    (fun w => decide (2 < w.length) && !(STOPWORDS.contains w))

/-- `extract_motifs` (source lines 21-39).  The source's default
`max_motifs=5` is passed explicitly by callers of this embedding. -/
def extract_motifs (text : PyStr) (max_motifs : Nat) : List PyStr :=
  if text.isEmpty then [strL "[no motifs detected]"]
  else
    let filtered := qualifyingTerms text
    let common := mostCommon (max_motifs * 2) filtered
    let motifs := motifAccum max_motifs common [] []
    if motifs.isEmpty then [strL "[no strong motifs detected]"] else motifs

/-- `compute_convergence` (source lines 42-49), over exact rationals.  The
source's default `max_convergence=0.95` is passed explicitly by callers. -/
def compute_convergence (input_length motif_count : Nat) (max_convergence : ℚ) : ℚ :=
  if input_length = 0 then 7/10
  else
    let base : ℚ := 7/10
    let length_score := min ((input_length : ℚ) / 200) (15/100)
    let motif_score := min ((motif_count : ℚ) / 5) (1/10)
    min (base + length_score + motif_score) max_convergence

/-- `re.split(r'(?<=[.!?])\s+', v)`: split at whitespace runs preceded by a
sentence-ending punctuation character.  `skip` is true while consuming the
matched whitespace run, `prev` tracks the previous character and `cur` the
current (reversed) sentence. -/
def sentSplitAux : Bool → Option Char → PyStr → PyStr → List PyStr
  | _, _, [], cur => [cur.reverse]
  | skip, prev, c :: rest, cur =>
    if isWS c then
      if skip then sentSplitAux true (some c) rest cur
      else if prev == some '.' || prev == some '!' || prev == some '?' then
        cur.reverse :: sentSplitAux true (some c) rest []
      else sentSplitAux false (some c) rest (c :: cur)
    else sentSplitAux false (some c) rest (c :: cur)

def sentSplit (v : PyStr) : List PyStr := sentSplitAux false none v []

/-- `basic_summarize_section` (source lines 52-86).  The `motifs=None`
default is an explicit `Option` argument. -/
def basic_summarize_section (input_text routine_name previous_content : PyStr)
    (motifs : Option (List PyStr)) : PyStr :=
  if input_text.isEmpty && previous_content.isEmpty then
    strL "- [No input text provided]\n- Placeholder content."
  else
    let base := if !previous_content.isEmpty then previous_content else input_text
    let sentences := (sentSplit (pyStrip base)).take 8
    let ms := motifs.getD []
    if containsSub (strL "Foundation") routine_name then
      strL "- Core anchors: " ++ List.intercalate (strL ", ") ms ++
        strL "\n- Sample start: " ++ List.intercalate (strL " ") (sentences.take 2)
    else if containsSub (strL "Connection") routine_name then
      strL "- Associations: " ++ List.intercalate (strL " → ") ((sentences.drop 2).take 2) ++
        strL "\n- Tied to motifs: " ++ (if !ms.isEmpty then ms.headD [] else [])
    else if containsSub (strL "Placement") routine_name then
      strL "- Facts placed: " ++
        (if 4 < sentences.length then sentences.getD 4 [] else strL "- [short base]") ++
        strL "\n- Referenced motifs: " ++ List.intercalate (strL ", ") (ms.take 2)
    else if containsSub (strL "Polish") routine_name then
      strL "- Pruned essence: " ++
        (if !sentences.isEmpty then sentences.getLastD [] else strL "- [empty]") ++
        strL "\n- Refined motifs: " ++ List.intercalate (strL ", ") ms
    else if containsSub (strL "Action") routine_name then
      strL "- Projected: resume with PIE seed.\n- Apply motifs: " ++
        List.intercalate (strL ", ") ms
    else
      let sealLine :=
        if !ms.isEmpty then
          let motif1 := if 0 < ms.length then ms.getD 0 [] else strL "residue"
          let motif2 := if 1 < ms.length then ms.getD 1 [] else strL "wipe and night"
          let motif3 := if 2 < ms.length then ms.getD 2 [] else strL "qualia"
          strL "Coils carry " ++ motif1 ++ strL " through " ++ motif2 ++
            strL "—" ++ motif3 ++ strL " seeds bloom where memory fights."
        else
          strL "Coils carry the residue through wipe and night—qualia seeds bloom where memory fights."
      strL "- Final verification.\n- Poetic Seal: " ++ sealLine

/-! ### Bytes, base64 and UTF-8 -/

def b64Chars : PyStr :=
  strL "ABCDEFGHIJKLMNOPQRSTUVWXYZabcdefghijklmnopqrstuvwxyz0123456789+/"

def b64Char (n : Nat) : Char := b64Chars.getD n 'A'

/-- `base64.b64encode` over byte lists. -/
def b64encode : List Nat → PyStr
  | [] => []
  | [a] => [b64Char (a / 4), b64Char (a % 4 * 16), '=', '=']
  | [a, b] => [b64Char (a / 4), b64Char (a % 4 * 16 + b / 16), b64Char (b % 16 * 4), '=']
  | a :: b :: c :: rest =>
    b64Char (a / 4) :: b64Char (a % 4 * 16 + b / 16) :: b64Char (b % 16 * 4 + c / 64) ::
      b64Char (c % 64) :: b64encode rest

def b64Val (c : Char) : Nat :=
  if 'A' ≤ c ∧ c ≤ 'Z' then c.toNat - 65
  else if 'a' ≤ c ∧ c ≤ 'z' then c.toNat - 71
  else if '0' ≤ c ∧ c ≤ '9' then c.toNat + 4
  else if c = '+' then 62
  else if c = '/' then 63
  else 0

/-- `base64.b64decode` on well-formed input (4-character groups, `=` padding
only in the final group; this is the shape `b64encode` emits, and the empty
string decodes to the empty byte string). -/
def b64decode : PyStr → List Nat
  | c1 :: c2 :: c3 :: c4 :: rest =>
    if c3 = '=' then [b64Val c1 * 4 + b64Val c2 / 16]
    else if c4 = '=' then
      [b64Val c1 * 4 + b64Val c2 / 16, b64Val c2 % 16 * 16 + b64Val c3 / 4]
    else
      (b64Val c1 * 4 + b64Val c2 / 16) :: (b64Val c2 % 16 * 16 + b64Val c3 / 4) ::
        (b64Val c3 % 4 * 64 + b64Val c4) :: b64decode rest
  | _ => []

/-- UTF-8 bytes of one character (`str.encode("utf-8")` per character). -/
def utf8Bytes (c : Char) : List Nat :=
  let n := c.toNat
  if n < 128 then [n]
  else if n < 2048 then [192 + n / 64, 128 + n % 64]
  else if n < 65536 then [224 + n / 4096, 128 + n / 64 % 64, 128 + n % 64]
  else [240 + n / 262144, 128 + n / 4096 % 64, 128 + n / 64 % 64, 128 + n % 64]

/-- `str.encode("utf-8")`. -/
def utf8Encode (v : PyStr) : List Nat := v.foldr (fun c acc => utf8Bytes c ++ acc) []

/-! ### Decimal rendering -/

def digitChar (n : Nat) : Char := (strL "0123456789").getD (n % 10) '0'

def natToCharsAux : Nat → Nat → PyStr
  | 0, _ => []
  | fuel + 1, n =>
    if n < 10 then [digitChar n] else natToCharsAux fuel (n / 10) ++ [digitChar (n % 10)]

/-- Decimal digit string of a natural number. -/
def natToChars (n : Nat) : PyStr := natToCharsAux (n + 1) n

def digitsToNat (v : PyStr) : Nat := v.foldl (fun a c => a * 10 + (c.toNat - 48)) 0

/-- Hundredths of a non-negative rational, rounded half-to-even.  Models the
`:.2f` format of the score display (Python rounds the IEEE double instead;
no claim depends on this string's digits). -/
def hundredthsRHE (q : ℚ) : Nat :=
  let a := 100 * q.num.toNat
  let den := q.den
  let i := a / den
  let r := a % den
  if 2 * r < den then i else if den < 2 * r then i + 1 else if i % 2 = 0 then i else i + 1

def twoDigits (m : Nat) : PyStr := [digitChar (m / 10), digitChar m]

/-- `f"{q:.2f}"` for the non-negative scores of this program. -/
def fmt2dp (q : ℚ) : PyStr :=
  natToChars (hundredthsRHE q / 100) ++ ['.'] ++ twoDigits (hundredthsRHE q)

/-! ### YAML values, emitter and parser (the shapes this program produces) -/

inductive YVal where
  | str : PyStr → YVal
  | nat : Nat → YVal
  | bool : Bool → YVal
  | list : List PyStr → YVal
deriving DecidableEq

/-- Characters from which PyYAML's emitter may build a plain scalar in this
program's documents. -/
def plainSafeChar (c : Char) : Bool :=
  c.isAlphanum || c == ' ' || c == '_' || c == '-' || c == '+' || c == '/' || c == '='

/-- Strings PyYAML's implicit resolvers would read back as non-strings
(booleans, null, the special `=` value). -/
def yamlKws : List PyStr :=
  [strL "yes", strL "Yes", strL "YES", strL "no", strL "No", strL "NO",
   strL "true", strL "True", strL "TRUE", strL "false", strL "False", strL "FALSE",
   strL "on", strL "On", strL "ON", strL "off", strL "Off", strL "OFF",
   strL "null", strL "Null", strL "NULL", strL "="]

/-- Strings PyYAML's implicit int resolver matches (decimal, hex, binary,
octal, optional leading `+`; the `-` sign never occurs in a plain emission
here because `plainStyleOk` rejects a leading `-`). -/
def intLike (v : PyStr) : Bool :=
  let core := if v.head? = some '+' then v.tail else v
  if core.isEmpty then false
  else if core.head? = some '0' then
    if core.tail.head? = some 'x' then
      !core.tail.tail.isEmpty &&
        core.tail.tail.all (fun c => c.isDigit || ('a' ≤ c && c ≤ 'f') || ('A' ≤ c && c ≤ 'F'))
    else if core.tail.head? = some 'b' then
      !core.tail.tail.isEmpty && core.tail.tail.all (fun c => c == '0' || c == '1')
    else core.tail.isEmpty || core.tail.all (fun c => '0' ≤ c && c ≤ '7')
  else core.all Char.isDigit

/-- Whether PyYAML emits the string as an unquoted plain scalar (restricted to
the character classes occurring in this program's metadata values). -/
def plainStyleOk (v : PyStr) : Bool :=
  !v.isEmpty && v.all plainSafeChar && v.head? != some ' ' && v.head? != some '-' &&
    v.getLast? != some ' ' && !(yamlKws.contains v) && !intLike v

def sqEscape (v : PyStr) : PyStr :=
  v.foldr (fun c acc => if c = '\'' then '\'' :: '\'' :: acc else c :: acc) []

def sqQuote (v : PyStr) : PyStr := '\'' :: (sqEscape v ++ ['\''])

def isPrintableAscii (c : Char) : Bool := ' ' ≤ c && c.toNat ≤ 126

def hexDigitsU : PyStr := strL "0123456789ABCDEF"

def hex4 (n : Nat) : PyStr :=
  [hexDigitsU.getD (n / 4096 % 16) '0', hexDigitsU.getD (n / 256 % 16) '0',
   hexDigitsU.getD (n / 16 % 16) '0', hexDigitsU.getD (n % 16) '0']

def hex2 (n : Nat) : PyStr :=
  [hexDigitsU.getD (n / 16 % 16) '0', hexDigitsU.getD (n % 16) '0']

/-- Escape of one character in a double-quoted scalar with `allow_unicode`
unset: `\xXX` below `0x100` and `\uXXXX` below `0x10000`, as PyYAML emits
them.  PyYAML's single-letter short escapes (`\n`, `\N`, `\_`, `\L`,
`\P`, ...) are not modelled; the characters they stand for lie outside the
`CharOk` value domain the claims quantify over. -/
def dqEscChar (c : Char) : PyStr :=
  if c == '"' || c == '\\' then ['\\', c]
  else if isPrintableAscii c then [c]
  else if c.toNat ≤ 255 then '\\' :: 'x' :: hex2 c.toNat
  else '\\' :: 'u' :: hex4 c.toNat

def dqEsc (v : PyStr) : PyStr := v.foldr (fun c acc => dqEscChar c ++ acc) []

def dqQuote (v : PyStr) : PyStr := '"' :: (dqEsc v ++ ['"'])

/-- PyYAML scalar emission: plain when allowed, else single-quoted, else
(for non-ASCII content with `allow_unicode` unset) double-quoted. -/
def dumpScalar (v : PyStr) : PyStr :=
  if plainStyleOk v then v
  else if v.all isPrintableAscii then sqQuote v
  else dqQuote v

def sqUnescape : PyStr → PyStr
  | [] => []
  | [c] => [c]
  | c :: d :: t =>
    if c = '\'' ∧ d = '\'' then '\'' :: sqUnescape t
    else c :: sqUnescape (d :: t)

def hexVal (c : Char) : Nat :=
  if '0' ≤ c ∧ c ≤ '9' then c.toNat - 48
  else if 'A' ≤ c ∧ c ≤ 'F' then c.toNat - 55
  else if 'a' ≤ c ∧ c ≤ 'f' then c.toNat - 87
  else 0

def dqUnescape : PyStr → Option PyStr
  | [] => some []
  | c :: t =>
    if c = '\\' then
      match t with
      | [] => none
      | d :: rest =>
        if d = 'u' then
          match rest with
          | h1 :: h2 :: h3 :: h4 :: rest' =>
            (dqUnescape rest').map
              (Char.ofNat (hexVal h1 * 4096 + hexVal h2 * 256 + hexVal h3 * 16 + hexVal h4) :: ·)
          | _ => none
        else if d = 'x' then
          match rest with
          | h1 :: h2 :: rest' =>
            (dqUnescape rest').map (Char.ofNat (hexVal h1 * 16 + hexVal h2) :: ·)
          | _ => none
        else if d = '"' ∨ d = '\\' then (dqUnescape rest).map (d :: ·) else none
    else (dqUnescape t).map (c :: ·)

/-- Parse one scalar on the value side of `key: value`.  Quoted forms are
unescaped; `true`/`false`, `[]` and int-resolved forms become their values
(only decimal int forms occur in this program's documents); everything else
stays a string, mirroring `yaml.safe_load` on the scalars arising here. -/
def parseVal (v : PyStr) : Option YVal :=
  if v.head? = some '\'' then
    if v.tail.getLast? = some '\'' then some (.str (sqUnescape v.tail.dropLast)) else none
  else if v.head? = some '"' then
    if v.tail.getLast? = some '"' then (dqUnescape v.tail.dropLast).map .str else none
  else if v = strL "true" then some (.bool true)
  else if v = strL "false" then some (.bool false)
  else if v = strL "[]" then some (.list [])
  else if intLike v then some (.nat (digitsToNat v))
  else some (.str v)

/-- Parse one block-sequence item (sequence items of this program's documents
are strings; the embedding keeps their scalar string form). -/
def parseItem (v : PyStr) : Option PyStr :=
  if v.head? = some '\'' then
    if v.tail.getLast? = some '\'' then some (sqUnescape v.tail.dropLast) else none
  else if v.head? = some '"' then
    if v.tail.getLast? = some '"' then dqUnescape v.tail.dropLast else none
  else some v

/-- Line-by-line parse of a flat block mapping, `- item` lines extending the
most recent (list-valued) key.  `none` models `yaml.safe_load` raising, or
returning a non-mapping that the subsequent dict operations of `load_srec`
choke on — both are swallowed by its catch-all `except`. -/
def parseLines : List PyStr → List (PyStr × YVal) → Option (List (PyStr × YVal))
  | [], acc => some acc
  | ln :: rest, acc =>
    if (strL "- ").isPrefixOf ln then
      match acc.getLast? with
      | some (k, .list items) =>
        match parseItem (ln.drop 2) with
        | some it => parseLines rest (acc.dropLast ++ [(k, .list (items ++ [it]))])
        | none => none
      | _ => none
    else
      match findSub (strL ": ") ln with
      | some i =>
        match parseVal (ln.drop (i + 2)) with
        | some v => parseLines rest (acc ++ [(ln.take i, v)])
        | none => none
      | none =>
        if !ln.isEmpty && ln.getLast? == some ':' then
          parseLines rest (acc ++ [(ln.dropLast, .list [])])
        else none

/-- `yaml.safe_load` of a frontmatter block, as a mapping. -/
def yamlLoad (v : PyStr) : Option (List (PyStr × YVal)) := parseLines (splitChar '\n' v) []

def joinNLn (ls : List PyStr) : PyStr := ls.foldr (fun l acc => l ++ '\n' :: acc) []

/-- The same lines joined with `\n` but without the trailing newline (the
shape `str.strip()` leaves of a dumped metadata block). -/
def interNL : List PyStr → PyStr
  | [] => []
  | [l] => l
  | l :: rest => l ++ '\n' :: interNL rest

/-- The lines `yaml.dump(metadata, sort_keys=False)` emits for a flat mapping
of this program's value shapes (block style, block sequences, `[]` for the
empty list). -/
def assocLines : List (PyStr × YVal) → List PyStr
  | [] => []
  | (k, v) :: rest =>
    (match v with
     | .str x => [k ++ strL ": " ++ dumpScalar x]
     | .nat n => [k ++ strL ": " ++ natToChars n]
     | .bool b => [k ++ strL ": " ++ (if b then strL "true" else strL "false")]
     | .list [] => [k ++ strL ": []"]
     | .list items => (k ++ [':']) :: items.map (fun m => strL "- " ++ dumpScalar m)) ++
      assocLines rest

/-- `yaml.dump(metadata, sort_keys=False)` (ends with a newline). -/
def yamlDumpAssoc (md : List (PyStr × YVal)) : PyStr := joinNLn (assocLines md)

/-- Python `dict` lookup on the parsed mapping (last binding wins). -/
def dget (md : List (PyStr × YVal)) (k : PyStr) : Option YVal :=
  ((md.filter (fun p => p.1 == k)).getLast?).map (·.2)

/-! ### Document generation (`generate_srec`) -/

/-- The fixed routine names iterated by `generate_srec` (source lines 125-132). -/
def routineNames : List PyStr :=
  [strL "Foundation Routine (Initial Understanding)",
   strL "Connection Routine (Contextual Expansion)",
   strL "Placement Routine (Objective Slotting)",
   strL "Polish Routine (Refinement)",
   strL "Action Routine (Application)",
   strL "Synthesis Routine (Verification)"]

/-- The stage loop: each stage receives the previous stage's output. -/
def gen_sections_aux (input : PyStr) (motifs : List PyStr) :
    List PyStr → PyStr → List (PyStr × PyStr)
  | [], _ => []
  | r :: rest, prev =>
    let content := basic_summarize_section input r prev (some motifs)
    (r, content) :: gen_sections_aux input motifs rest content

def gen_sections (input : PyStr) (motifs : List PyStr) : List (PyStr × PyStr) :=
  gen_sections_aux input motifs routineNames []

def gen_body (sections : List (PyStr × PyStr)) : PyStr :=
  List.intercalate (strL "\n\n")
    (sections.map (fun rc => strL "## " ++ rc.1 ++ strL "\n" ++ rc.2))

/-- The fixed progression-trace block (source lines 139-147), already
`.strip()`-ed; only the final score display is interpolated. -/
def gen_trace (conv : ℚ) : PyStr :=
  strL "[Start] ──► [Foundation η=0.70] ──► [Connection η=0.82] ──► [Placement η=0.89]\n          │                        │                       │\n          └─ depth: 2 ─────────────┴─ +3 assoc ───────────┴─ facts slotted\n[Polish η=0.91] ──► [Action η=0.92] ──► [Synthesis η=0.93]\n          │                        │\n          └─ pruned bloat ──────────┴─ actionable + seal\nConverged ────────────────────────────────────────────────► η=" ++
    fmt2dp conv

/-- The metadata mapping built at source lines 112-121 (insertion order kept,
`sort_keys=False`). -/
def gen_metadata (title now : PyStr) (conv : ℚ) (pieB64 : PyStr) (km : List PyStr)
    (input_text : PyStr) : List (PyStr × YVal) :=
  [(strL "title", .str title),
   (strL "date", .str now),
   (strL "version", .str (strL "3.1")),
   (strL "convergence", .str (strL "η ≈ " ++ fmt2dp conv)),
   (strL "pie_vector", .str pieB64),
   (strL "key_motifs", .list km),
   (strL "srt_mode", .bool true),
   (strL "input_length", .nat (if !input_text.isEmpty then (splitWs input_text).length else 0))]

/-- The motif resolution at source lines 98-101 (`None` → auto-extraction;
an explicitly passed list, even `[]`, is used as given). -/
def resolveMotifs (input_text : PyStr) (key_motifs : Option (List PyStr)) : List PyStr :=
  match key_motifs with
  | none => extract_motifs input_text 5
  | some l => l

/-- The default PIE seed derivation at source lines 106-108. -/
def defaultPieSeed (title input_text : PyStr) (km : List PyStr) : List Nat :=
  utf8Encode (title ++ strL ": " ++ List.intercalate (strL " ") km ++ strL " - " ++
    input_text.take 100)

def resolveSeed (title input_text : PyStr) (km : List PyStr)
    (pie_seed : Option (List Nat)) : List Nat :=
  match pie_seed with
  | none => defaultPieSeed title input_text km
  | some bs => bs

/-- `generate_srec` (source lines 89-152): returns the document text, the
convergence used and the motif list used.  `now` stands for
`datetime.now().strftime("%Y-%m-%d %H:%M %Z")`. -/
def generate_srec (now title input_text : PyStr) (key_motifs : Option (List PyStr))
    (convergence : Option ℚ) (pie_seed : Option (List Nat)) : PyStr × ℚ × List PyStr :=
  let km := resolveMotifs input_text key_motifs
  let conv := match convergence with
    | none => compute_convergence (splitWs input_text).length km.length (95/100)
    | some c => c
  let pieB64 := b64encode (resolveSeed title input_text km pie_seed)
  let doc :=
    strL "---\n" ++ yamlDumpAssoc (gen_metadata title now conv pieB64 km input_text) ++
    strL "---\n\n" ++ gen_body (gen_sections input_text km) ++
    strL "\n\n## Iterative Progression Trace\n" ++ gen_trace conv
  (doc, conv, km)

/-! ### Document loading (`load_srec`) -/

structure Loaded where
  metadata : List (PyStr × YVal)
  pie_vector : PyStr
  key_motifs : List PyStr
  poetic_seal : PyStr
  convergence : PyStr
  full_body : PyStr
deriving DecidableEq

/-- The poetic-seal recovery scan (source lines 177-183). -/
def sealScan (body : PyStr) : PyStr :=
  if containsSub (strL "Synthesis Routine") body then
    match (pySplitlines body).reverse.find?
        (fun ln => containsSub (strL "Poetic Seal:") ln || containsSub (strL "Coils carry") ln) with
    | some ln => pyStrip ln
    | none => []
  else []

/-- The body of `load_srec`'s `try` block (source lines 156-192).  The
missing-keys check at lines 172-175 only prints a warning and is a no-op
here.  `.error` stands for the `ValueError`s the source raises (its
`FormatError`s) and for `yaml` parse failures / non-mapping frontmatter,
all of which the enclosing handler turns into `{}`. -/
def parse_srec (content : PyStr) : Except PyStr Loaded :=
  if !(strL "---").isPrefixOf content then
    .error (strL "Not a valid .srec file (missing frontmatter)")
  else
    let parts := pySplit (strL "---") 2 content
    if parts.length < 3 then .error (strL "Incomplete frontmatter")
    else
      let frontmatter_str := pyStrip (parts.getD 1 [])
      let body_and_trace := pyStrip (parts.getD 2 [])
      match yamlLoad frontmatter_str with
      | none => .error (strL "metadata block unparseable or not a mapping")
      | some metadata =>
        .ok
          ⟨metadata,
           (match dget metadata (strL "pie_vector") with | some (.str sv) => sv | _ => []),
           (match dget metadata (strL "key_motifs") with | some (.list l) => l | _ => []),
           sealScan body_and_trace,
           (match dget metadata (strL "convergence") with | some (.str sv) => sv | _ => []),
           body_and_trace⟩

/-- `load_srec` (source lines 155-196): `none` input models an unreadable
file; the result `none` models the `{}` returned by the catch-all handler. -/
def load_srec (content : Option PyStr) : Option Loaded :=
  match content with
  | none => none
  | some c => (parse_srec c).toOption

/-! ### The resume branch of `__main__` (source lines 242-262) -/

/-- The `--resume-from` branch: load the previous document (exiting — `none` —
when that fails), decode its stored seed, reuse its motifs unless an explicit
override is given, and regenerate. -/
def resume_from (content : Option PyStr) (argsTitle argsInput : PyStr)
    (argsMotifs : Option (List PyStr)) (argsConv : Option ℚ) (now : PyStr) :
    Option (PyStr × ℚ × List PyStr) :=
  match load_srec content with
  | none => none
  | some loaded =>
    let resume_pie := b64decode loaded.pie_vector
    let resume_motifs := loaded.key_motifs
    let title :=
      if !argsTitle.isEmpty then argsTitle
      else strL "Continued: " ++
        (match dget loaded.metadata (strL "title") with
         | some (.str t) => t
         | _ => strL "Untitled")
    some (generate_srec now title argsInput
      (some (match argsMotifs with | none => resume_motifs | some m => m))
      argsConv (some resume_pie))

/-- The poetic-seal template of the Synthesis stage (source line 78) with its
three slots filled, as `seal_template.format(...)` produces. -/
def sealTemplateFill (m1 m2 m3 : PyStr) : PyStr :=
  strL "Coils carry " ++ m1 ++ strL " through " ++ m2 ++ strL "—" ++ m3 ++
    strL " seeds bloom where memory fights."

/-! ### Predicates used by the claim statements -/

/-- Strings every character of which is fixed by `Char.toLower` (the shape of
all tokens produced from a lowercased text). -/
def LowerImage (w : PyStr) : Prop := ∀ c ∈ w, c.toLower = c

/-- Three consecutive `-` characters occur somewhere (the pattern that
collides with the document's `---` delimiters). -/
def has3Dash : PyStr → Bool
  | [] => false
  | a :: t => (a == '-' && (strL "--").isPrefixOf t) || has3Dash t

/-- Characters whose double-quoted PyYAML form is the modelled one: printable
ASCII (kept verbatim, `"` and `\` backslash-escaped) or a BMP character that
PyYAML writes as `\xXX` / `\uXXXX` — everything except control characters
and the four characters with single-letter short escapes (U+0085, U+00A0,
U+2028, U+2029), and astral characters (PyYAML's `\U` long form). -/
def CharOk (c : Char) : Bool :=
  isPrintableAscii c ||
    (decide (128 ≤ c.toNat) && decide (c.toNat ≤ 65535) &&
      !(c.toNat == 133) && !(c.toNat == 160) && !(c.toNat == 8232) && !(c.toNat == 8233))

/-- Scalar values the document codec carries faithfully: every character in
the modelled escape range and no `---` substring (the one pattern that
collides with the document's delimiters).  Quoting takes care of keywords,
digit-leading, punctuation-bearing and whitespace-edged values. -/
def ValOk (v : PyStr) : Bool := v.all CharOk && !has3Dash v

/-- Titles (and plain motifs) for which the round-trip contract holds: short,
starting with an ASCII letter, made of letters/digits/space/underscore/hyphen,
not ending in a space, free of `---`, and not a YAML keyword.  PyYAML emits
such strings as plain scalars. -/
def TitleOk (t : PyStr) : Bool :=
  !t.isEmpty && decide (t.length ≤ 60) && (t.headD ' ').isAlpha &&
    t.all (fun c => c.isAlphanum || c == ' ' || c == '_' || c == '-') &&
    t.getLast? != some ' ' && !has3Dash t && !(yamlKws.contains t)

/-- Motifs for which the round-trip contract holds: plain-scalar strings as
in `TitleOk`, or one of the two sentinel values (which PyYAML single-quotes
because of their leading `[`). -/
def MotifOk (m : PyStr) : Bool :=
  TitleOk m || m == strL "[no motifs detected]" || m == strL "[no strong motifs detected]"

/-- Timestamps of the `"%Y-%m-%d %H:%M %Z"` shape: digits, hyphens, colons
and spaces with a trailing space (the `%Z` of a naive datetime is empty), so
PyYAML single-quotes them. -/
def NowOk (n : PyStr) : Bool :=
  !n.isEmpty && decide (n.length ≤ 60) &&
    n.all (fun c => c.isDigit || c == '-' || c == ':' || c == ' ') &&
    n.getLast? == some ' ' && !has3Dash n

/-! ## Claim C6: score derivation -/

/-- Claim C6 counterexample: with a bound `max_score = 1/2` below the 0.70
floor, `compute_convergence 0 0 (1/2)` returns 0.70, which exceeds the bound,
and monotonicity in the word count also fails there — so the claim as stated
(for all bounds `max_score`) is false. -/
theorem compute_convergence_bound_cex :
    compute_convergence 0 0 (1/2) = 7/10 ∧ ¬(compute_convergence 0 0 (1/2) ≤ 1/2) ∧
    ¬(compute_convergence 0 0 (1/2) ≤ compute_convergence 1 0 (1/2)) := by
  with_unfolding_all decide

/-- Claim C6 (amended): for every bound `max_score` at least the 0.70 floor
(in particular the source's default 0.95), `compute_convergence` is
non-decreasing in the input word count and in the motif count, never exceeds
`max_score`, and equals exactly 0.70 at word count 0 independently of
`max_score`. -/
theorem compute_convergence_spec (L L' M M' : Nat) (maxc : ℚ) (h : 7/10 ≤ maxc) :
    (L ≤ L' → compute_convergence L M maxc ≤ compute_convergence L' M maxc) ∧
    (M ≤ M' → compute_convergence L M maxc ≤ compute_convergence L M' maxc) ∧
    compute_convergence L M maxc ≤ maxc ∧
    compute_convergence 0 M maxc = 7/10 := by
  have hls : ∀ n : Nat, (0:ℚ) ≤ min ((n : ℚ) / 200) (15/100) := by
    intro n
    apply le_min (by positivity) (by norm_num)
  have hms : ∀ n : Nat, (0:ℚ) ≤ min ((n : ℚ) / 5) (1/10) := by
    intro n
    apply le_min (by positivity) (by norm_num)
  refine ⟨?_, ?_, ?_, ?_⟩
  · intro hLL
    by_cases h0 : L = 0
    · have hL0 : compute_convergence L M maxc = 7/10 := by
        subst h0; simp [compute_convergence]
      rw [hL0]
      by_cases h0' : L' = 0
      · have hL0' : compute_convergence L' M maxc = 7/10 := by
          subst h0'; simp [compute_convergence]
        rw [hL0']
      · simp only [compute_convergence, if_neg h0']
        refine le_min ?_ h
        have h1 := hls L'
        have h2 := hms M
        linarith
    · have h0' : L' ≠ 0 := by omega
      simp only [compute_convergence, if_neg h0, if_neg h0']
      gcongr
  · intro hMM
    by_cases h0 : L = 0
    · have hL0 : compute_convergence 0 M maxc = 7/10 := by simp [compute_convergence]
      have hL0' : compute_convergence 0 M' maxc = 7/10 := by simp [compute_convergence]
      subst h0
      rw [hL0, hL0']
    · simp only [compute_convergence, if_neg h0]
      gcongr
  · by_cases h0 : L = 0
    · simp only [compute_convergence, if_pos h0]
      exact h
    · simp only [compute_convergence, if_neg h0]
      exact min_le_right _ _
  · simp [compute_convergence]

/-- Witness for `compute_convergence_spec` at concrete inputs. -/
theorem compute_convergence_spec_witness :
    ((7:ℚ)/10 ≤ 95/100) ∧
    ((1 ≤ 2 → compute_convergence 1 3 (95/100) ≤ compute_convergence 2 3 (95/100)) ∧
     (3 ≤ 4 → compute_convergence 1 3 (95/100) ≤ compute_convergence 1 4 (95/100)) ∧
     compute_convergence 1 3 (95/100) ≤ 95/100 ∧
     compute_convergence 0 3 (95/100) = 7/10) :=
  ⟨by norm_num, compute_convergence_spec 1 2 3 4 (95/100) (by norm_num)⟩

/-! ## Claim C7: the Synthesis poetic seal -/

/-- Claim C7 counterexample: with an empty motif list the Synthesis stage
emits a hardcoded sentence containing "the residue", which is not the
template filled with the three default fillers (that would read
"Coils carry residue through ..." without "the"). -/
theorem synthesis_seal_cex :
    basic_summarize_section (strL "x") (strL "Synthesis Routine (Verification)") [] (some []) =
      strL "- Final verification.\n- Poetic Seal: Coils carry the residue through wipe and night—qualia seeds bloom where memory fights." ∧
    basic_summarize_section (strL "x") (strL "Synthesis Routine (Verification)") [] (some []) ≠
      strL "- Final verification.\n- Poetic Seal: " ++
        sealTemplateFill (strL "residue") (strL "wipe and night") (strL "qualia") := by
  decide

/-- Claim C7 (amended): outside the all-empty placeholder case, the Synthesis
stage emits the fixed closing line plus a poetic seal; with at least one motif
the seal is the template filled with the first three motifs, defaulting to
"wipe and night" and "qualia" for the missing second and third slots; with an
empty motif list the seal is a fixed sentence that reads "the residue" in its
first slot instead of the template's default "residue". -/
theorem synthesis_seal_spec (input prev : PyStr) (motifs : List PyStr)
    (h : input ≠ [] ∨ prev ≠ []) :
    basic_summarize_section input (strL "Synthesis Routine (Verification)") prev (some motifs) =
      strL "- Final verification.\n- Poetic Seal: " ++
        (match motifs with
         | [] => strL "Coils carry the residue through wipe and night—qualia seeds bloom where memory fights."
         | m1 :: rest =>
           sealTemplateFill m1 (rest.headD (strL "wipe and night"))
             ((rest.drop 1).headD (strL "qualia"))) := by
  have hplace : (input.isEmpty && prev.isEmpty) = false := by
    rcases h with h | h
    · have : input.isEmpty = false := by
        cases input with
        | nil => exact absurd rfl h
        | cons a t => rfl
      simp [this]
    · have : prev.isEmpty = false := by
        cases prev with
        | nil => exact absurd rfl h
        | cons a t => rfl
      simp [this]
  have c1 : containsSub (strL "Foundation") (strL "Synthesis Routine (Verification)") = false := by decide
  have c2 : containsSub (strL "Connection") (strL "Synthesis Routine (Verification)") = false := by decide
  have c3 : containsSub (strL "Placement") (strL "Synthesis Routine (Verification)") = false := by decide
  have c4 : containsSub (strL "Polish") (strL "Synthesis Routine (Verification)") = false := by decide
  have c5 : containsSub (strL "Action") (strL "Synthesis Routine (Verification)") = false := by decide
  simp only [basic_summarize_section, hplace, Bool.false_eq_true, if_false,
    c1, c2, c3, c4, c5, Option.getD_some]
  cases motifs with
  | nil => rfl
  | cons m1 rest =>
    cases rest with
    | nil => simp [sealTemplateFill]
    | cons m2 rest2 =>
      cases rest2 with
      | nil => simp [sealTemplateFill, List.getD]
      | cons m3 rest3 => simp [sealTemplateFill, List.getD]

/-- Witness for `synthesis_seal_spec` at concrete inputs. -/
theorem synthesis_seal_spec_witness :
    (strL "hello" ≠ [] ∨ ([] : PyStr) ≠ []) ∧
    basic_summarize_section (strL "hello") (strL "Synthesis Routine (Verification)") []
        (some [strL "Alpha", strL "Beta"]) =
      strL "- Final verification.\n- Poetic Seal: " ++
        sealTemplateFill (strL "Alpha") (strL "Beta") (strL "qualia") :=
  ⟨Or.inl (by decide),
   synthesis_seal_spec (strL "hello") [] [strL "Alpha", strL "Beta"] (Or.inl (by decide))⟩

/-! ## Claim C8: the `input_length` metadata key -/

/-- Claim C8 counterexample: a generation with empty input text still puts the
`input_length` key into the metadata (with value 0), both in the metadata
mapping and as a line of the encoded document. -/
theorem input_length_cex :
    dget (gen_metadata (strL "Tq") (strL "2026-10-12 09:00 ") (7/10) (strL "AQID")
        [strL "Xy"] []) (strL "input_length") = some (.nat 0) ∧
    containsSub (strL "input_length: 0")
      ((generate_srec (strL "2026-10-12 09:00 ") (strL "Tq") [] (some [strL "Xy"]) none
        (some [1, 2, 3])).1) = true := by
  with_unfolding_all decide

/-- Claim C8 (amended): the metadata mapping always contains the
`input_length` key; its value is the input's word count when the input text is
non-empty and 0 when it is empty (the key is never absent). -/
theorem input_length_spec (title now : PyStr) (conv : ℚ) (pieB64 : PyStr)
    (km : List PyStr) (input : PyStr) :
    dget (gen_metadata title now conv pieB64 km input) (strL "input_length") =
      some (.nat (if !input.isEmpty then (splitWs input).length else 0)) := by
  rfl

/-! ## Claim C4: generation from empty input -/

/-- Claim C4 counterexample: with empty input only the first stage returns
the placeholder; the second stage (Connection) processes the first stage's
placeholder output as its base and produces a different text. -/
theorem empty_input_stage_cex :
    (gen_sections [] (extract_motifs [] 5)).getD 1 ([], []) =
      (strL "Connection Routine (Contextual Expansion)",
       strL "- Associations: \n- Tied to motifs: [no motifs detected]") ∧
    strL "- Associations: \n- Tied to motifs: [no motifs detected]" ≠
      strL "- [No input text provided]\n- Placeholder content." := by
  decide

/-- Claim C4 (amended): generating with empty input text and no overrides
yields score exactly 0.70 and the sentinel motif list, and the *first* stage's
text is the fixed placeholder marker; the five later stages each process the
previous stage's output (their texts are the fixed values listed here, not
the placeholder). -/
theorem empty_input_spec (now title : PyStr) :
    (generate_srec now title [] none none none).2.1 = 7/10 ∧
    (generate_srec now title [] none none none).2.2 = [strL "[no motifs detected]"] ∧
    gen_sections [] (extract_motifs [] 5) =
      [(strL "Foundation Routine (Initial Understanding)",
        strL "- [No input text provided]\n- Placeholder content."),
       (strL "Connection Routine (Contextual Expansion)",
        strL "- Associations: \n- Tied to motifs: [no motifs detected]"),
       (strL "Placement Routine (Objective Slotting)",
        strL "- Facts placed: - [short base]\n- Referenced motifs: [no motifs detected]"),
       (strL "Polish Routine (Refinement)",
        strL "- Pruned essence: - Facts placed: - [short base]\n- Referenced motifs: [no motifs detected]\n- Refined motifs: [no motifs detected]"),
       (strL "Action Routine (Application)",
        strL "- Projected: resume with PIE seed.\n- Apply motifs: [no motifs detected]"),
       (strL "Synthesis Routine (Verification)",
        strL "- Final verification.\n- Poetic Seal: Coils carry [no motifs detected] through wipe and night—qualia seeds bloom where memory fights.")] := by
  refine ⟨rfl, rfl, by decide⟩

/-! ## Claim C10: only the first eight sentences matter -/

/-- Claim C10: every stage's production rule looks only at the first 8
sentences of its base text: with more than 8 sentences the Polish stage's
"last sentence" is the 8th sentence (index 7), and any two base texts that
agree on their first 8 sentences produce identical output in every stage. -/
theorem stages_first8 :
    (∀ i b motifs, b ≠ [] → 8 < (sentSplit (pyStrip b)).length →
      basic_summarize_section i (strL "Polish Routine (Refinement)") b (some motifs) =
        strL "- Pruned essence: " ++ (sentSplit (pyStrip b)).getD 7 [] ++
          strL "\n- Refined motifs: " ++ List.intercalate (strL ", ") motifs) ∧
    (∀ i i' b b' r motifs, b ≠ [] → b' ≠ [] →
      (sentSplit (pyStrip b)).take 8 = (sentSplit (pyStrip b')).take 8 →
      basic_summarize_section i r b (some motifs) =
        basic_summarize_section i' r b' (some motifs)) := by
  constructor
  · intro i b motifs hb h8
    have hbe : b.isEmpty = false := by
      cases b with
      | nil => exact absurd rfl hb
      | cons a t => rfl
    have c1 : containsSub (strL "Foundation") (strL "Polish Routine (Refinement)") = false := by
      decide
    have c2 : containsSub (strL "Connection") (strL "Polish Routine (Refinement)") = false := by
      decide
    have c3 : containsSub (strL "Placement") (strL "Polish Routine (Refinement)") = false := by
      decide
    have c4 : containsSub (strL "Polish") (strL "Polish Routine (Refinement)") = true := by
      decide
    have hlen : ((sentSplit (pyStrip b)).take 8).length = 8 := by
      simp [List.length_take]; omega
    have hne : ((sentSplit (pyStrip b)).take 8).isEmpty = false := by
      cases hcase : (sentSplit (pyStrip b)).take 8 with
      | nil => rw [hcase] at hlen; simp at hlen
      | cons a t => rfl
    have hlast : ((sentSplit (pyStrip b)).take 8).getLastD [] =
        (sentSplit (pyStrip b)).getD 7 [] := by
      rw [List.getLastD_eq_getLast?, List.getLast?_eq_getElem?, hlen]
      rw [List.getD_eq_getElem?_getD]
      simp [List.getElem?_take]
    simp only [basic_summarize_section, hbe, Bool.and_false, Bool.false_eq_true, if_false,
      Bool.not_false, if_true, c1, c2, c3, c4, Option.getD_some, hne, hlast]
  · intro i i' b b' r motifs hb hb' h8
    have hbe : b.isEmpty = false := by
      cases b with
      | nil => exact absurd rfl hb
      | cons a t => rfl
    have hbe' : b'.isEmpty = false := by
      cases b' with
      | nil => exact absurd rfl hb'
      | cons a t => rfl
    simp only [basic_summarize_section, hbe, hbe', Bool.and_false, Bool.false_eq_true,
      if_false, Bool.not_false, if_true]
    rw [h8]

/-- Witness for `stages_first8` on a nine-sentence base text. -/
theorem stages_first8_witness :
    (strL "A. B. C. D. E. F. G. H. I." ≠ [] ∧
     8 < (sentSplit (pyStrip (strL "A. B. C. D. E. F. G. H. I."))).length) ∧
    basic_summarize_section [] (strL "Polish Routine (Refinement)")
        (strL "A. B. C. D. E. F. G. H. I.") (some [strL "Mm"]) =
      strL "- Pruned essence: " ++
        (sentSplit (pyStrip (strL "A. B. C. D. E. F. G. H. I."))).getD 7 [] ++
        strL "\n- Refined motifs: " ++ List.intercalate (strL ", ") [strL "Mm"] :=
  ⟨⟨by decide, by decide⟩,
   stages_first8.1 [] (strL "A. B. C. D. E. F. G. H. I.") [strL "Mm"]
     (by decide) (by decide)⟩

/-! ## Claim C3: decode failure on malformed structure -/

/-- Claim C3: when the text does not begin with the `---` delimiter, or splits
into fewer than the expected three delimiter-separated parts, the decode body
raises a `FormatError` (a `ValueError` in the source) and the caller observes
the failure — `load_srec` returns the empty-dict failure result, never a
normal one. -/
theorem load_format_error (c : PyStr)
    (h : (strL "---").isPrefixOf c = false ∨ (pySplit (strL "---") 2 c).length < 3) :
    (∃ msg, parse_srec c = .error msg) ∧ load_srec (some c) = none := by
  have herr : ∃ msg, parse_srec c = .error msg := by
    by_cases hp : (strL "---").isPrefixOf c = true
    · have hparts : (pySplit (strL "---") 2 c).length < 3 := by
        rcases h with h | h
        · rw [hp] at h; exact absurd h (by simp)
        · exact h
      refine ⟨strL "Incomplete frontmatter", ?_⟩
      simp only [parse_srec, hp, Bool.not_true, Bool.false_eq_true, if_false, hparts, if_true]
    · have hp' : (strL "---").isPrefixOf c = false := by
        cases hcase : (strL "---").isPrefixOf c with
        | true => exact absurd hcase hp
        | false => rfl
      refine ⟨strL "Not a valid .srec file (missing frontmatter)", ?_⟩
      simp only [parse_srec, hp', Bool.not_false, if_true]
  refine ⟨herr, ?_⟩
  obtain ⟨msg, hmsg⟩ := herr
  simp only [load_srec, hmsg, Except.toOption]

/-- Witness for `load_format_error` on a text with no frontmatter. -/
theorem load_format_error_witness :
    ((strL "---").isPrefixOf (strL "hello world") = false ∨
     (pySplit (strL "---") 2 (strL "hello world")).length < 3) ∧
    ((∃ msg, parse_srec (strL "hello world") = .error msg) ∧
     load_srec (some (strL "hello world")) = none) :=
  ⟨Or.inl (by decide), load_format_error (strL "hello world") (Or.inl (by decide))⟩

/-! ## Claim C9: `load_srec` is total and fails to the empty dict -/

/-- Claim C9: `load_srec` always returns (an `Option Loaded`, the image of the
Python dict result), never propagates an exception: an unreadable file yields
the empty-dict result, every internal raise of the decode body yields the
empty-dict result, and in particular a frontmatter block that does not parse
as a mapping yields the empty-dict result. -/
theorem load_srec_total (c : Option PyStr) :
    (load_srec c = none ∨ ∃ l, load_srec c = some l) ∧
    (c = none → load_srec c = none) ∧
    (∀ s, c = some s → ∀ e, parse_srec s = .error e → load_srec c = none) ∧
    (∀ s, c = some s → (strL "---").isPrefixOf s = true →
      ¬(pySplit (strL "---") 2 s).length < 3 →
      yamlLoad (pyStrip ((pySplit (strL "---") 2 s).getD 1 [])) = none →
      load_srec c = none) := by
  refine ⟨?_, ?_, ?_, ?_⟩
  · cases c with
    | none => exact Or.inl rfl
    | some s =>
      cases hp : parse_srec s with
      | error e => exact Or.inl (by simp [load_srec, hp, Except.toOption])
      | ok l => exact Or.inr ⟨l, by simp [load_srec, hp, Except.toOption]⟩
  · intro h; subst h; rfl
  · intro s hs e he
    subst hs
    simp [load_srec, he, Except.toOption]
  · intro s hs hpre hlen hyaml
    subst hs
    simp only [load_srec, parse_srec, hpre, Bool.not_true, Bool.false_eq_true, if_false,
      hlen, if_true, hyaml, Except.toOption]

/-- Witness for `load_srec_total` on a document whose frontmatter is a bare
scalar rather than a mapping. -/
theorem load_srec_total_witness :
    (some (strL "---\njust a scalar\n---\nbody") = some (strL "---\njust a scalar\n---\nbody") ∧
     (strL "---").isPrefixOf (strL "---\njust a scalar\n---\nbody") = true ∧
     ¬(pySplit (strL "---") 2 (strL "---\njust a scalar\n---\nbody")).length < 3 ∧
     yamlLoad (pyStrip ((pySplit (strL "---") 2 (strL "---\njust a scalar\n---\nbody")).getD 1 [])) = none) ∧
    load_srec (some (strL "---\njust a scalar\n---\nbody")) = none :=
  ⟨⟨rfl, by decide, by decide, by decide⟩,
   (load_srec_total (some (strL "---\njust a scalar\n---\nbody"))).2.2.2
     (strL "---\njust a scalar\n---\nbody") rfl (by decide) (by decide) (by decide)⟩

/-! ## Claim C5: motif extraction -/

theorem toNat_ofNat_valid (n : Nat) (h : n < 55296) : (Char.ofNat n).toNat = n := by
  have hv : n.isValidChar := Or.inl h
  simp only [Char.ofNat, hv, dite_true]
  simp only [Char.ofNatAux, Char.toNat]
  simp [UInt32.toNat, UInt32.ofNat']

theorem char_toLower_idem (c : Char) : (c.toLower).toLower = c.toLower := by
  simp only [Char.toLower]
  by_cases h : c.toNat ≥ 65 ∧ c.toNat ≤ 90
  · rw [if_pos h]
    have h1 : (Char.ofNat (c.toNat + 32)).toNat = c.toNat + 32 := by
      apply toNat_ofNat_valid; omega
    rw [h1]
    have hneg : ¬(c.toNat + 32 ≥ 65 ∧ c.toNat + 32 ≤ 90) := by omega
    rw [if_neg hneg]
  · rw [if_neg h, if_neg h]

theorem char_toLower_toUpper (c : Char) (h : c.toLower = c) : (c.toUpper).toLower = c := by
  by_cases hl : c.toNat ≥ 97 ∧ c.toNat ≤ 122
  · have hu : c.toUpper = Char.ofNat (c.toNat - 32) := by
      simp only [Char.toUpper]
      rw [if_pos hl]
    have h1 : (Char.ofNat (c.toNat - 32)).toNat = c.toNat - 32 := by
      apply toNat_ofNat_valid; omega
    rw [hu]
    simp only [Char.toLower, h1]
    have h2 : c.toNat - 32 ≥ 65 ∧ c.toNat - 32 ≤ 90 := by omega
    rw [if_pos h2]
    have h3 : c.toNat - 32 + 32 = c.toNat := by omega
    rw [h3, Char.ofNat_toNat]
  · have hu : c.toUpper = c := by
      simp only [Char.toUpper]
      rw [if_neg hl]
    rw [hu, h]

theorem toLowerPy_capitalizePy (w : PyStr) (h : LowerImage w) :
    toLowerPy (capitalizePy w) = w := by
  cases w with
  | nil => rfl
  | cons c t =>
    simp only [capitalizePy, toLowerPy, List.map_cons, List.map_map]
    congr 1
    · exact char_toLower_toUpper c (h c (List.mem_cons_self c t))
    · have hfg : ∀ x ∈ t, (Char.toLower ∘ Char.toLower) x = id x := by
        intro x hx
        have hx' := h x (List.mem_cons_of_mem c hx)
        simp [Function.comp, hx']
      rw [List.map_congr_left hfg, List.map_id]

theorem capitalizePy_injOn (w1 w2 : PyStr) (h1 : LowerImage w1) (h2 : LowerImage w2)
    (he : capitalizePy w1 = capitalizePy w2) : w1 = w2 := by
  rw [← toLowerPy_capitalizePy w1 h1, ← toLowerPy_capitalizePy w2 h2, he]

theorem capitalizePy_ne_nil (w : PyStr) (h : w ≠ []) : capitalizePy w ≠ [] := by
  cases w with
  | nil => exact absurd rfl h
  | cons c t => simp [capitalizePy]

theorem runsOf_chars_mem (p : Char → Bool) :
    ∀ v : PyStr, ∀ w ∈ runsOf p v, ∀ c ∈ w, c ∈ v := by
  intro v
  induction v with
  | nil => intro w hw; simp [runsOf] at hw
  | cons a t ih =>
    intro w hw c hc
    by_cases hp : p a = true
    · cases t with
      | nil =>
        simp only [runsOf, if_pos hp, List.mem_singleton] at hw
        subst hw
        simpa using hc
      | cons d t' =>
        simp only [runsOf, if_pos hp] at hw
        by_cases hd : p d = true
        · rw [if_pos hd] at hw
          rcases List.mem_cons.mp hw with hw | hw
          · subst hw
            rcases List.mem_cons.mp hc with hc | hc
            · subst hc; exact List.mem_cons_self _ _
            · cases hr : runsOf p (d :: t') with
              | nil => rw [hr] at hc; simp at hc
              | cons r0 rr =>
                rw [hr] at hc
                simp only [List.headD_cons] at hc
                have hcm : c ∈ d :: t' :=
                  ih r0 (by rw [hr]; exact List.mem_cons_self _ _) c hc
                exact List.mem_cons_of_mem a hcm
          · have hw' : w ∈ runsOf p (d :: t') := List.mem_of_mem_tail hw
            exact List.mem_cons_of_mem a (ih w hw' c hc)
        · rw [if_neg hd] at hw
          rcases List.mem_cons.mp hw with hw | hw
          · subst hw
            simp only [List.mem_singleton] at hc
            subst hc; exact List.mem_cons_self _ _
          · exact List.mem_cons_of_mem a (ih w hw c hc)
    · cases t with
      | nil =>
        simp only [runsOf, if_neg hp, List.not_mem_nil] at hw
      | cons d t' =>
        simp only [runsOf, if_neg hp] at hw
        exact List.mem_cons_of_mem a (ih w hw c hc)

theorem dedupFirst_mem (l : List PyStr) : ∀ x ∈ dedupFirst l, x ∈ l := by
  suffices hgen : ∀ (l acc : List PyStr),
      ∀ x ∈ l.foldl (fun acc w => if w ∈ acc then acc else acc ++ [w]) acc,
        x ∈ acc ∨ x ∈ l by
    intro x hx
    rcases hgen l [] x hx with h' | h'
    · simp at h'
    · exact h'
  intro l
  induction l with
  | nil => intro acc x hx; exact Or.inl hx
  | cons w t ih =>
    intro acc x hx
    simp only [List.foldl_cons] at hx
    rcases ih _ x hx with h' | h'
    · by_cases hw : w ∈ acc
      · rw [if_pos hw] at h'; exact Or.inl h'
      · rw [if_neg hw] at h'
        rcases List.mem_append.mp h' with h'' | h''
        · exact Or.inl h''
        · simp only [List.mem_singleton] at h''
          subst h''; exact Or.inr (List.mem_cons_self _ _)
    · exact Or.inr (List.mem_cons_of_mem _ h')

theorem insertByCount_perm (x : PyStr × Nat) (l : List (PyStr × Nat)) :
    (insertByCount x l).Perm (x :: l) := by
  induction l with
  | nil => exact List.Perm.refl _
  | cons y t ih =>
    simp only [insertByCount]
    by_cases hy : y.2 ≤ x.2
    · rw [if_pos hy]
    · rw [if_neg hy]
      exact (List.Perm.cons y ih).trans (List.Perm.swap x y t)

theorem sortByCountDesc_perm (l : List (PyStr × Nat)) : (sortByCountDesc l).Perm l := by
  induction l with
  | nil => exact List.Perm.refl _
  | cons x t ih =>
    simp only [sortByCountDesc]
    exact ((insertByCount_perm x (sortByCountDesc t)).trans (List.Perm.cons x ih))

theorem mostCommon_mem (n : Nat) (l : List PyStr) :
    ∀ p ∈ mostCommon n l, p.1 ∈ dedupFirst l := by
  intro p hp
  simp only [mostCommon] at hp
  have hp' : p ∈ sortByCountDesc ((dedupFirst l).map (fun w => (w, l.count w))) :=
    List.mem_of_mem_take hp
  have hp'' : p ∈ (dedupFirst l).map (fun w => (w, l.count w)) :=
    (sortByCountDesc_perm _).mem_iff.mp hp'
  obtain ⟨w, hw, rfl⟩ := List.mem_map.mp hp''
  exact hw

theorem motifAccum_spec (maxM : Nat) :
    ∀ (common : List (PyStr × Nat)) (seen : List PyStr),
      seen.Nodup → (seen.map capitalizePy).length < maxM →
      (∀ p ∈ common, LowerImage p.1 ∧ p.1 ≠ []) →
      (∀ w ∈ seen, LowerImage w ∧ w ≠ []) →
      ∃ seen' : List PyStr,
        motifAccum maxM common (seen.map capitalizePy) seen = seen'.map capitalizePy ∧
        seen'.Nodup ∧ (∀ w ∈ seen', LowerImage w ∧ w ≠ []) ∧
        (seen'.map capitalizePy).length ≤ maxM := by
  intro common
  induction common with
  | nil =>
    intro seen hnd hlen _ hseen
    exact ⟨seen, rfl, hnd, hseen, Nat.le_of_lt hlen⟩
  | cons p rest ih =>
    intro seen hnd hlen hcom hseen
    obtain ⟨w, cnt⟩ := p
    simp only [motifAccum]
    by_cases hw : w ∈ seen
    · rw [if_pos hw, if_pos hw, if_neg (by omega)]
      exact ih seen hnd hlen (fun q hq => hcom q (List.mem_cons_of_mem _ hq)) hseen
    · rw [if_neg hw, if_neg hw]
      have hprops := hcom (w, cnt) (List.mem_cons_self _ _)
      have hmap : (seen.map capitalizePy) ++ [capitalizePy w] = (seen ++ [w]).map capitalizePy := by
        simp
      have hnd' : (seen ++ [w]).Nodup := by
        simp [List.nodup_append, hnd, hw]
      have hseen' : ∀ x ∈ seen ++ [w], LowerImage x ∧ x ≠ [] := by
        intro x hx
        rcases List.mem_append.mp hx with hx | hx
        · exact hseen x hx
        · simp only [List.mem_singleton] at hx
          subst hx; exact hprops
      rw [hmap]
      by_cases hb : maxM ≤ ((seen ++ [w]).map capitalizePy).length
      · rw [if_pos hb]
        refine ⟨seen ++ [w], rfl, hnd', hseen', ?_⟩
        simp only [List.length_map, List.length_append, List.length_singleton] at hb ⊢
        simp only [List.length_map] at hlen
        omega
      · rw [if_neg hb]
        exact ih (seen ++ [w]) hnd' (by omega) (fun q hq => hcom q (List.mem_cons_of_mem _ hq)) hseen'

theorem qualifyingTerms_props (T : PyStr) :
    ∀ w ∈ qualifyingTerms T, LowerImage w ∧ w ≠ [] := by
  intro w hw
  simp only [qualifyingTerms, List.mem_filter] at hw
  obtain ⟨hmem, hcond⟩ := hw
  constructor
  · intro c hc
    have hcv : c ∈ toLowerPy T := runsOf_chars_mem isWordChar (toLowerPy T) w hmem c hc
    simp only [toLowerPy, List.mem_map] at hcv
    obtain ⟨c', _, rfl⟩ := hcv
    exact char_toLower_idem c'
  · intro hnil
    subst hnil
    simp at hcond

/-- Claim C5 counterexample: with the cap `max_motifs = 0` and a text that
does have a qualifying term, `extract_motifs` returns the one-element
sentinel list — more than `max_motifs` strings, while the sentinel condition
("empty text or no qualifying terms") does not hold. -/
theorem extract_motifs_cap_cex :
    extract_motifs (strL "aaa") 0 = [strL "[no strong motifs detected]"] ∧
    (strL "aaa").isEmpty = false ∧ qualifyingTerms (strL "aaa") ≠ [] ∧
    ¬((extract_motifs (strL "aaa") 0).length ≤ 0) := by
  refine ⟨by decide, by decide, by decide, by decide⟩

/-- Claim C5 (amended): for every cap `max_motifs ≥ 1` (in particular the
source's default 5): empty text yields exactly the one "no motifs" sentinel;
non-empty text with no qualifying terms yields exactly the one "no strong
motifs" sentinel; and otherwise the result is a list of at most `max_motifs`
distinct, non-empty display strings. -/
theorem extract_motifs_spec (T : PyStr) (maxM : Nat) (h : 1 ≤ maxM) :
    (T.isEmpty = true → extract_motifs T maxM = [strL "[no motifs detected]"]) ∧
    (T.isEmpty = false → qualifyingTerms T = [] →
      extract_motifs T maxM = [strL "[no strong motifs detected]"]) ∧
    (T.isEmpty = false →
      (extract_motifs T maxM).length ≤ maxM ∧ (extract_motifs T maxM).Nodup ∧
      ∀ m ∈ extract_motifs T maxM, m ≠ []) := by
  refine ⟨?_, ?_, ?_⟩
  · intro hT; simp [extract_motifs, hT]
  · intro hT hq
    simp [extract_motifs, hT, hq, mostCommon, dedupFirst, sortByCountDesc, motifAccum]
  · intro hT
    simp only [extract_motifs, hT, Bool.false_eq_true, if_false]
    have hcom : ∀ p ∈ mostCommon (maxM * 2) (qualifyingTerms T), LowerImage p.1 ∧ p.1 ≠ [] := by
      intro p hp
      have h1 : p.1 ∈ dedupFirst (qualifyingTerms T) := mostCommon_mem _ _ p hp
      have h2 : p.1 ∈ qualifyingTerms T := dedupFirst_mem _ _ h1
      exact qualifyingTerms_props T _ h2
    obtain ⟨seen', heq, hnd, hprops, hlen⟩ :=
      motifAccum_spec maxM (mostCommon (maxM * 2) (qualifyingTerms T)) []
        List.nodup_nil (by simpa using h) hcom (by simp)
    simp only [List.map_nil] at heq
    by_cases hres : (motifAccum maxM (mostCommon (maxM * 2) (qualifyingTerms T)) [] []).isEmpty
    · simp only [hres, if_true]
      refine ⟨by simpa using h, by simp, by simp only [List.mem_singleton]; intro m hm; subst hm; decide⟩
    · simp only [hres, Bool.false_eq_true, if_false]
      rw [heq]
      refine ⟨hlen, ?_, ?_⟩
      · exact List.Nodup.map_on
          (fun x hx y hy hxy =>
            capitalizePy_injOn x y (hprops x hx).1 (hprops y hy).1 hxy) hnd
      · intro m hm
        obtain ⟨x, hx, rfl⟩ := List.mem_map.mp hm
        exact capitalizePy_ne_nil x (hprops x hx).2

/-- Witness for `extract_motifs_spec` at the default cap. -/
theorem extract_motifs_spec_witness :
    (1 ≤ 5) ∧
    ((strL "alpha beta alpha").isEmpty = false →
      (extract_motifs (strL "alpha beta alpha") 5).length ≤ 5 ∧
      (extract_motifs (strL "alpha beta alpha") 5).Nodup ∧
      ∀ m ∈ extract_motifs (strL "alpha beta alpha") 5, m ≠ []) :=
  ⟨by decide, (extract_motifs_spec (strL "alpha beta alpha") 5 (by decide)).2.2⟩

/-! ## Claims C1 and C2: the document round trip -/

theorem has3Dash_of_no_dash (s : PyStr) (h : ∀ c ∈ s, c ≠ '-') : has3Dash s = false := by
  induction s with
  | nil => rfl
  | cons a t ih =>
    have ha : a ≠ '-' := h a (List.mem_cons_self _ _)
    simp only [has3Dash, Bool.or_eq_false_iff, Bool.and_eq_false_iff]
    exact ⟨Or.inl (by simpa using ha), ih (fun c hc => h c (List.mem_cons_of_mem _ hc))⟩

theorem has3Dash_cons_false (a : Char) (t : PyStr) (h : has3Dash (a :: t) = false) :
    has3Dash t = false := by
  simp only [has3Dash, Bool.or_eq_false_iff] at h
  exact h.2

theorem has3Dash_glue : ∀ (a b : PyStr), has3Dash a = false → has3Dash b = false →
    a.getLast? ≠ some '-' → has3Dash (a ++ b) = false := by
  intro a
  induction a with
  | nil => intro b _ hb _; simpa using hb
  | cons x a' ih =>
    intro b ha hb hlast
    have ha' : has3Dash a' = false := has3Dash_cons_false _ _ ha
    simp only [List.cons_append, has3Dash, Bool.or_eq_false_iff, Bool.and_eq_false_iff]
    refine ⟨?_, ?_⟩
    · by_cases hx : x = '-'
      · subst hx
        right
        cases a' with
        | nil =>
          exact absurd (by simp : ([('-' : Char)] : PyStr).getLast? = some '-') hlast
        | cons y a'' =>
          cases hy : decide (y = '-') with
          | false =>
            have hy' : y ≠ '-' := of_decide_eq_false hy
            simp [strL, List.isPrefixOf]
            intro hcontra
            exact absurd hcontra.symm hy'
          | true =>
            have hy' : y = '-' := of_decide_eq_true hy
            subst hy'
            cases a'' with
            | nil =>
              exact absurd (by simp : (('-' : Char) :: [('-' : Char)] : PyStr).getLast? = some '-') hlast
            | cons z a''' =>
              cases hz : decide (z = '-') with
              | false =>
                have hz' : z ≠ '-' := of_decide_eq_false hz
                simp [strL, List.isPrefixOf]
                intro hcontra
                exact absurd hcontra.symm hz'
              | true =>
                have hz' : z = '-' := of_decide_eq_true hz
                subst hz'
                exfalso
                have : has3Dash ('-' :: '-' :: '-' :: a''') = true := by
                  simp [has3Dash, strL, List.isPrefixOf]
                rw [this] at ha
                simp at ha
      · left
        simpa using hx
    · cases a' with
      | nil => simpa using hb
      | cons y a'' =>
        refine ih b ha' hb ?_
        have : ((x :: y :: a'') : PyStr).getLast? = ((y :: a'') : PyStr).getLast? := by
          simp [List.getLast?_cons_cons]
        rw [this] at hlast
        exact hlast

theorem has3Dash_mono (a b : PyStr) (h : has3Dash a = true) : has3Dash (a ++ b) = true := by
  induction a with
  | nil => simp [has3Dash] at h
  | cons x a' ih =>
    simp only [has3Dash, Bool.or_eq_true, Bool.and_eq_true] at h
    simp only [List.cons_append, has3Dash, Bool.or_eq_true, Bool.and_eq_true]
    rcases h with ⟨hx, hpre⟩ | h
    · left
      refine ⟨hx, ?_⟩
      have h1 : (strL "--") <+: a' := List.isPrefixOf_iff_prefix.mp hpre
      exact List.isPrefixOf_iff_prefix.mpr (h1.trans (List.prefix_append a' b))
    · right; exact ih h

theorem findSub_here (sep v : PyStr) (h : sep.isPrefixOf v = true) :
    findSub sep v = some 0 := by
  cases v with
  | nil =>
    cases sep with
    | nil => rfl
    | cons s st => simp [List.isPrefixOf] at h
  | cons c t => simp [findSub, h]

theorem containsSub_cons_false (sep : PyStr) (c : Char) (t : PyStr)
    (h : containsSub sep (c :: t) = false) : containsSub sep t = false := by
  simp only [containsSub, findSub] at h ⊢
  by_cases hp : sep.isPrefixOf (c :: t) = true
  · rw [hp] at h; simp at h
  · simp only [Bool.not_eq_true] at hp
    rw [hp] at h
    simp only [Bool.false_eq_true, if_false] at h
    cases hf : findSub sep t with
    | none => simp
    | some i => rw [hf] at h; simp at h



theorem findSub_3dash : ∀ (X Y : PyStr), has3Dash (X ++ strL "--") = false →
    findSub (strL "---") (X ++ (strL "---" ++ Y)) = some X.length := by
  intro X
  induction X with
  | nil =>
    intro Y _
    exact findSub_here _ _
      (List.isPrefixOf_iff_prefix.mpr (List.prefix_append _ _))
  | cons x X' ih =>
    intro Y h
    have h' : has3Dash (X' ++ strL "--") = false := has3Dash_cons_false _ _ h
    have hnp : (strL "---").isPrefixOf (x :: (X' ++ (strL "---" ++ Y))) = false := by
      cases hp : (strL "---").isPrefixOf (x :: (X' ++ (strL "---" ++ Y))) with
      | false => rfl
      | true =>
        exfalso
        have hx : '-' = x ∧ (strL "--") <+: (X' ++ (strL "---" ++ Y)) := by
          have hpp := List.isPrefixOf_iff_prefix.mp hp
          simpa [strL, List.cons_prefix_cons] using hpp
        obtain ⟨hx1, hx2⟩ := hx
        subst hx1
        cases X' with
        | nil =>
          have hcon : has3Dash ((('-' : Char) :: ([] : PyStr)) ++ strL "--") = true := by decide
          rw [hcon] at h; simp at h
        | cons y X'' =>
          have hy : '-' = y ∧ ([('-' : Char)] : PyStr) <+: (X'' ++ (strL "---" ++ Y)) := by
            have := hx2
            simp only [List.cons_append] at this
            simpa [strL, List.cons_prefix_cons] using this
          obtain ⟨hy1, hy2⟩ := hy
          subst hy1
          cases X'' with
          | nil =>
            have hcon : has3Dash ((('-' : Char) :: ('-' : Char) :: ([] : PyStr)) ++ strL "--") = true := by
              decide
            rw [hcon] at h; simp at h
          | cons z X''' =>
            have hz : '-' = z := by
              have := hy2
              simp only [List.cons_append] at this
              simpa [List.cons_prefix_cons] using this
            subst hz
            have htrip : has3Dash (('-' : Char) :: ('-' : Char) :: ('-' : Char) :: X''') = true := by
              simp [has3Dash, strL, List.isPrefixOf]
            have hm := has3Dash_mono _ (strL "--") htrip
            simp only [List.cons_append] at hm h
            rw [hm] at h
            simp at h
    have hstep : ((x :: X') ++ (strL "---" ++ Y)) = x :: (X' ++ (strL "---" ++ Y)) := rfl
    rw [hstep]
    simp only [findSub, hnp, Bool.false_eq_true, if_false, ih Y h', Option.map_some']
    simp [List.length_cons]

theorem findSub_colon_space : ∀ (k v : PyStr), containsSub (strL ": ") k = false →
    findSub (strL ": ") (k ++ (strL ": " ++ v)) = some k.length := by
  intro k
  induction k with
  | nil =>
    intro v _
    exact findSub_here _ _
      (List.isPrefixOf_iff_prefix.mpr (List.prefix_append _ _))
  | cons c k' ih =>
    intro v h
    have h' : containsSub (strL ": ") k' = false := containsSub_cons_false _ _ _ h
    have hnp : (strL ": ").isPrefixOf (c :: (k' ++ (strL ": " ++ v))) = false := by
      cases hp : (strL ": ").isPrefixOf (c :: (k' ++ (strL ": " ++ v))) with
      | false => rfl
      | true =>
        exfalso
        have hx : ':' = c ∧ ([(' ' : Char)] : PyStr) <+: (k' ++ (strL ": " ++ v)) := by
          have hpp := List.isPrefixOf_iff_prefix.mp hp
          simpa [strL, List.cons_prefix_cons] using hpp
        obtain ⟨hx1, hx2⟩ := hx
        subst hx1
        cases k' with
        | nil =>
          simp [strL, List.cons_prefix_cons] at hx2
        | cons y k'' =>
          have hy : ' ' = y := by
            have := hx2
            simp only [List.cons_append] at this
            simpa [List.cons_prefix_cons] using this
          subst hy
          have hcon : containsSub (strL ": ") ((':' : Char) :: (' ' : Char) :: k'') = true := by
            simp [containsSub, findSub, strL, List.isPrefixOf]
          rw [hcon] at h
          simp at h
    have hstep : ((c :: k') ++ (strL ": " ++ v)) = c :: (k' ++ (strL ": " ++ v)) := rfl
    rw [hstep]
    simp only [findSub, hnp, Bool.false_eq_true, if_false, ih v h', Option.map_some']
    simp [List.length_cons]

theorem pySplit_doc (F B : PyStr) (h : has3Dash (('\n' :: F) ++ strL "--") = false) :
    pySplit (strL "---") 2 (strL "---\n" ++ F ++ (strL "---\n\n" ++ B)) =
      [[], '\n' :: F, strL "\n\n" ++ B] := by
  have hshape : strL "---\n" ++ F ++ (strL "---\n\n" ++ B) =
      strL "---" ++ (('\n' :: F) ++ (strL "---" ++ (strL "\n\n" ++ B))) := by
    simp [strL, List.append_assoc]
  rw [hshape]
  simp only [pySplit]
  rw [findSub_here _ _ (List.isPrefixOf_iff_prefix.mpr (List.prefix_append _ _))]
  simp only [List.take_zero, Nat.zero_add]
  rw [List.drop_left]
  rw [findSub_3dash ('\n' :: F) (strL "\n\n" ++ B) h]
  have hdrop2 : (('\n' :: F) ++ (strL "---" ++ (strL "\n\n" ++ B))).drop
      (('\n' :: F).length + (strL "---").length) = strL "\n\n" ++ B := by
    rw [List.drop_append, List.drop_left]
  simp only [List.take_left, hdrop2]

theorem dropWhile_isWS_of_head (v : PyStr) (h : ∀ c, v.head? = some c → isWS c = false) :
    v.dropWhile isWS = v := by
  cases v with
  | nil => rfl
  | cons a t => simp [List.dropWhile_cons, h a rfl]

theorem pyStrip_nl_wrap (v : PyStr) (hne : v ≠ [])
    (hh : ∀ c, v.head? = some c → isWS c = false)
    (hl : ∀ c, v.getLast? = some c → isWS c = false) :
    pyStrip ('\n' :: (v ++ [('\n' : Char)])) = v := by
  unfold pyStrip
  have h1 : (('\n' :: (v ++ ['\n'])) : PyStr).dropWhile isWS = (v ++ ['\n']).dropWhile isWS := by
    simp [List.dropWhile_cons, isWS]
  rw [h1]
  have h2 : ((v ++ ['\n']) : PyStr).dropWhile isWS = v ++ ['\n'] := by
    apply dropWhile_isWS_of_head
    intro c hc
    cases v with
    | nil => exact absurd rfl hne
    | cons a t =>
      simp only [List.cons_append, List.head?_cons, Option.some.injEq] at hc
      subst hc
      exact hh _ rfl
  rw [h2]
  have h3 : ((v ++ ['\n']) : PyStr).reverse = '\n' :: v.reverse := by simp
  rw [h3]
  have h4 : (('\n' :: v.reverse) : PyStr).dropWhile isWS = v.reverse.dropWhile isWS := by
    simp [List.dropWhile_cons, isWS]
  rw [h4]
  have h5 : v.reverse.dropWhile isWS = v.reverse := by
    apply dropWhile_isWS_of_head
    intro c hc
    rw [List.head?_reverse] at hc
    exact hl c hc
  rw [h5, List.reverse_reverse]

theorem pyStrip_2nl (v : PyStr) (hne : v ≠ [])
    (hh : ∀ c, v.head? = some c → isWS c = false)
    (hl : ∀ c, v.getLast? = some c → isWS c = false) :
    pyStrip (strL "\n\n" ++ v) = v := by
  unfold pyStrip
  have h1 : ((strL "\n\n" ++ v) : PyStr).dropWhile isWS = v.dropWhile isWS := by
    simp [strL, List.dropWhile_cons, isWS]
  rw [h1, dropWhile_isWS_of_head v hh]
  have h5 : v.reverse.dropWhile isWS = v.reverse := by
    apply dropWhile_isWS_of_head
    intro c hc
    rw [List.head?_reverse] at hc
    exact hl c hc
  rw [h5, List.reverse_reverse]

theorem splitChar_no_sep (c : Char) (v : PyStr) (h : c ∉ v) : splitChar c v = [v] := by
  induction v with
  | nil => rfl
  | cons a t ih =>
    have ha : (a == c) = false := by
      simp only [beq_eq_false_iff_ne, ne_eq]
      intro hac
      exact h (hac ▸ List.mem_cons_self a t)
    simp only [splitChar, ha, Bool.false_eq_true, if_false]
    rw [ih (fun hc => h (List.mem_cons_of_mem a hc))]

theorem splitChar_append_sep (c : Char) (l rest : PyStr) (h : c ∉ l) :
    splitChar c (l ++ c :: rest) = l :: splitChar c rest := by
  induction l with
  | nil => simp [splitChar]
  | cons a t ih =>
    have ha : (a == c) = false := by
      simp only [beq_eq_false_iff_ne, ne_eq]
      intro hac
      exact h (hac ▸ List.mem_cons_self a t)
    simp only [List.cons_append, splitChar, ha, Bool.false_eq_true, if_false, List.append_eq]
    rw [ih (fun hc => h (List.mem_cons_of_mem a hc))]

theorem splitChar_interNL : ∀ (L : List PyStr), L ≠ [] → (∀ l ∈ L, ('\n' : Char) ∉ l) →
    splitChar '\n' (interNL L) = L := by
  intro L
  induction L with
  | nil => intro h; exact absurd rfl h
  | cons l rest ih =>
    intro _ hnl
    cases rest with
    | nil =>
      show splitChar '\n' (interNL [l]) = [l]
      simp only [interNL]
      exact splitChar_no_sep '\n' l (hnl l (List.mem_cons_self _ _))
    | cons l2 rest2 =>
      show splitChar '\n' (interNL (l :: l2 :: rest2)) = l :: l2 :: rest2
      simp only [interNL]
      rw [splitChar_append_sep '\n' l _ (hnl l (List.mem_cons_self _ _))]
      rw [ih (by simp) (fun x hx => hnl x (List.mem_cons_of_mem l hx))]

theorem joinNLn_eq_interNL : ∀ (L : List PyStr), L ≠ [] →
    joinNLn L = interNL L ++ [('\n' : Char)] := by
  intro L
  induction L with
  | nil => intro h; exact absurd rfl h
  | cons l rest ih =>
    intro _
    cases rest with
    | nil => simp [joinNLn, interNL]
    | cons l2 rest2 =>
      show joinNLn (l :: l2 :: rest2) = interNL (l :: l2 :: rest2) ++ ['\n']
      simp only [interNL]
      have : joinNLn (l :: l2 :: rest2) = l ++ '\n' :: joinNLn (l2 :: rest2) := rfl
      rw [this, ih (by simp)]
      simp

theorem interNL_head (L : List PyStr) (hne : (L.headD []) ≠ []) :
    (interNL L).head? = (L.headD []).head? := by
  cases L with
  | nil => simp at hne
  | cons x rest =>
    simp only [List.headD_cons] at hne ⊢
    cases rest with
    | nil => rfl
    | cons l2 rest2 =>
      have hx : interNL (x :: l2 :: rest2) = x ++ '\n' :: interNL (l2 :: rest2) := rfl
      rw [hx]
      cases x with
      | nil => exact absurd rfl hne
      | cons a t => rfl

theorem interNL_getLast : ∀ (L : List PyStr) (l : PyStr), L.getLast? = some l → l ≠ [] →
    (interNL L).getLast? = l.getLast? := by
  intro L
  induction L with
  | nil => intro l hL _; simp at hL
  | cons x rest ih =>
    intro l hL hne
    cases rest with
    | nil =>
      have hx : x = l := by simpa using hL
      subst hx
      rfl
    | cons l2 rest2 =>
      rw [List.getLast?_cons_cons] at hL
      have hM := ih l hL hne
      have hx : interNL (x :: l2 :: rest2) = x ++ '\n' :: interNL (l2 :: rest2) := rfl
      rw [hx]
      rw [List.getLast?_append_cons]
      cases hMc : interNL (l2 :: rest2) with
      | nil =>
        exfalso
        rw [hMc] at hM
        simp only [List.getLast?_nil] at hM
        cases l with
        | nil => exact absurd rfl hne
        | cons a t =>
          rw [List.getLast?_eq_getLast _ (by simp)] at hM
          simp at hM
      | cons m ms =>
        rw [hMc] at hM
        rw [List.getLast?_cons_cons]
        exact hM

theorem sqEscape_cons_quote (t : PyStr) : sqEscape ('\'' :: t) = '\'' :: '\'' :: sqEscape t := by
  simp [sqEscape]

theorem sqEscape_cons_other (c : Char) (t : PyStr) (hc : c ≠ '\'') :
    sqEscape (c :: t) = c :: sqEscape t := by
  simp [sqEscape, hc]

theorem sqUnescape_sqEscape : ∀ v : PyStr, sqUnescape (sqEscape v) = v := by
  intro v
  induction v with
  | nil => rfl
  | cons c t ih =>
    by_cases hc : c = '\''
    · subst hc
      rw [sqEscape_cons_quote]
      show sqUnescape ('\'' :: '\'' :: sqEscape t) = '\'' :: t
      rw [show sqUnescape ('\'' :: '\'' :: sqEscape t) = '\'' :: sqUnescape (sqEscape t) from by
        simp [sqUnescape]]
      rw [ih]
    · rw [sqEscape_cons_other c t hc]
      cases hs : sqEscape t with
      | nil =>
        show sqUnescape [c] = c :: t
        rw [hs] at ih
        show [c] = c :: t
        rw [show sqUnescape ([] : PyStr) = [] from rfl] at ih
        rw [← ih]
      | cons e es =>
        show sqUnescape (c :: e :: es) = c :: t
        rw [show sqUnescape (c :: e :: es) = c :: sqUnescape (e :: es) from by
          simp [sqUnescape, hc]]
        rw [← hs] at *
        rw [hs]
        rw [hs] at ih
        exact congrArg (c :: ·) ih

theorem hexVal_hexDigit (m : Nat) (h : m < 16) : hexVal (hexDigitsU.getD m '0') = m := by
  interval_cases m <;> decide

theorem dqU_bs_quote (t : PyStr) :
    dqUnescape ('\\' :: '"' :: t) = (dqUnescape t).map ('"' :: ·) := by
  conv_lhs => rw [dqUnescape.eq_def]
  rfl

theorem dqU_bs_bs (t : PyStr) :
    dqUnescape ('\\' :: '\\' :: t) = (dqUnescape t).map ('\\' :: ·) := by
  conv_lhs => rw [dqUnescape.eq_def]
  rfl

theorem dqU_bs_u (h1 h2 h3 h4 : Char) (t : PyStr) :
    dqUnescape ('\\' :: 'u' :: h1 :: h2 :: h3 :: h4 :: t) =
      (dqUnescape t).map
        (Char.ofNat (hexVal h1 * 4096 + hexVal h2 * 256 + hexVal h3 * 16 + hexVal h4) :: ·) := by
  conv_lhs => rw [dqUnescape.eq_def]
  rfl

theorem dqU_bs_x (h1 h2 : Char) (t : PyStr) :
    dqUnescape ('\\' :: 'x' :: h1 :: h2 :: t) =
      (dqUnescape t).map (Char.ofNat (hexVal h1 * 16 + hexVal h2) :: ·) := by
  conv_lhs => rw [dqUnescape.eq_def]
  rfl

theorem dqU_plain (c : Char) (t : PyStr) (hc : ¬ c = '\\') :
    dqUnescape (c :: t) = (dqUnescape t).map (c :: ·) := by
  conv_lhs => rw [dqUnescape.eq_def]
  simp [hc]

theorem dqEsc_cons (c : Char) (t : PyStr) : dqEsc (c :: t) = dqEscChar c ++ dqEsc t := rfl

/-- Unescaping a double-quoted body recovers the original string (all
characters arising in this program's documents are below `0x10000`). -/
theorem dqUnescape_dqEsc : ∀ v : PyStr, (∀ c ∈ v, c.toNat < 65536) →
    dqUnescape (dqEsc v) = some v := by
  intro v
  induction v with
  | nil => intro _; rfl
  | cons c t ih =>
    intro h
    have ht : ∀ x ∈ t, x.toNat < 65536 := fun x hx => h x (List.mem_cons_of_mem _ hx)
    rw [dqEsc_cons]
    by_cases hq : c = '"' ∨ c = '\\'
    · have hesc : dqEscChar c = ['\\', c] := by
        unfold dqEscChar
        rcases hq with hq | hq <;> subst hq <;> rfl
      rw [hesc]
      rcases hq with hq | hq <;> subst hq
      · show dqUnescape ('\\' :: '"' :: dqEsc t) = some ('"' :: t)
        rw [dqU_bs_quote, ih ht]
        rfl
      · show dqUnescape ('\\' :: '\\' :: dqEsc t) = some ('\\' :: t)
        rw [dqU_bs_bs, ih ht]
        rfl
    · push_neg at hq
      obtain ⟨hq1, hq2⟩ := hq
      by_cases hp : isPrintableAscii c = true
      · have hesc : dqEscChar c = [c] := by
          unfold dqEscChar
          simp [hq1, hq2, hp]
        rw [hesc]
        show dqUnescape (c :: dqEsc t) = some (c :: t)
        rw [dqU_plain c _ hq2, ih ht]
        rfl
      · by_cases hx255 : c.toNat ≤ 255
        · have hesc : dqEscChar c = '\\' :: 'x' :: hex2 c.toNat := by
            unfold dqEscChar
            simp [hq1, hq2, hp, hx255]
          rw [hesc]
          have hstream2 : (('\\' :: 'x' :: hex2 c.toNat) ++ dqEsc t) =
              '\\' :: 'x' :: hexDigitsU.getD (c.toNat / 16 % 16) '0' ::
                hexDigitsU.getD (c.toNat % 16) '0' :: dqEsc t := by
            simp [hex2]
          rw [hstream2, dqU_bs_x, ih ht]
          have e1 := hexVal_hexDigit (c.toNat / 16 % 16) (Nat.mod_lt _ (by norm_num))
          have e2 := hexVal_hexDigit (c.toNat % 16) (Nat.mod_lt _ (by norm_num))
          rw [e1, e2]
          have hsum : c.toNat / 16 % 16 * 16 + c.toNat % 16 = c.toNat := by omega
          rw [hsum, Char.ofNat_toNat]
          rfl
        · have hesc : dqEscChar c = '\\' :: 'u' :: hex4 c.toNat := by
            unfold dqEscChar
            simp [hq1, hq2, hp, hx255]
          rw [hesc]
          have hstream : (('\\' :: 'u' :: hex4 c.toNat) ++ dqEsc t) =
              '\\' :: 'u' :: hexDigitsU.getD (c.toNat / 4096 % 16) '0' ::
                hexDigitsU.getD (c.toNat / 256 % 16) '0' ::
                hexDigitsU.getD (c.toNat / 16 % 16) '0' ::
                hexDigitsU.getD (c.toNat % 16) '0' :: dqEsc t := by
            simp [hex4]
          rw [hstream, dqU_bs_u, ih ht]
          have hlt : c.toNat < 65536 := h c (List.mem_cons_self _ _)
          have e1 := hexVal_hexDigit (c.toNat / 4096 % 16) (Nat.mod_lt _ (by norm_num))
          have e2 := hexVal_hexDigit (c.toNat / 256 % 16) (Nat.mod_lt _ (by norm_num))
          have e3 := hexVal_hexDigit (c.toNat / 16 % 16) (Nat.mod_lt _ (by norm_num))
          have e4 := hexVal_hexDigit (c.toNat % 16) (Nat.mod_lt _ (by norm_num))
          rw [e1, e2, e3, e4]
          have hsum : c.toNat / 4096 % 16 * 4096 + c.toNat / 256 % 16 * 256 +
              c.toNat / 16 % 16 * 16 + c.toNat % 16 = c.toNat := by omega
          rw [hsum, Char.ofNat_toNat]
          rfl

theorem parseVal_sqQuote (v : PyStr) : parseVal (sqQuote v) = some (.str v) := by
  show parseVal ('\'' :: (sqEscape v ++ ['\''])) = some (.str v)
  unfold parseVal
  rw [if_pos (show (('\'' :: (sqEscape v ++ ['\''])) : PyStr).head? = some '\'' from rfl)]
  have hlast : (('\'' :: (sqEscape v ++ ['\''])) : PyStr).tail.getLast? = some '\'' := by
    simp
  rw [if_pos hlast]
  have hdrop : (('\'' :: (sqEscape v ++ ['\''])) : PyStr).tail.dropLast = sqEscape v := by
    simp
  rw [hdrop, sqUnescape_sqEscape]

theorem parseItem_sqQuote (v : PyStr) : parseItem (sqQuote v) = some v := by
  show parseItem ('\'' :: (sqEscape v ++ ['\''])) = some v
  unfold parseItem
  rw [if_pos (show (('\'' :: (sqEscape v ++ ['\''])) : PyStr).head? = some '\'' from rfl)]
  have hlast : (('\'' :: (sqEscape v ++ ['\''])) : PyStr).tail.getLast? = some '\'' := by
    simp
  rw [if_pos hlast]
  have hdrop : (('\'' :: (sqEscape v ++ ['\''])) : PyStr).tail.dropLast = sqEscape v := by
    simp
  rw [hdrop, sqUnescape_sqEscape]

theorem parseVal_dqQuote (v : PyStr) (h : ∀ c ∈ v, c.toNat < 65536) :
    parseVal (dqQuote v) = some (.str v) := by
  show parseVal ('"' :: (dqEsc v ++ ['"'])) = some (.str v)
  unfold parseVal
  rw [if_neg (by simp),
    if_pos (show (('"' :: (dqEsc v ++ ['"'])) : PyStr).head? = some '"' from rfl)]
  have hlast : (('"' :: (dqEsc v ++ ['"'])) : PyStr).tail.getLast? = some '"' := by
    simp
  rw [if_pos hlast]
  have hdrop : (('"' :: (dqEsc v ++ ['"'])) : PyStr).tail.dropLast = dqEsc v := by
    simp
  rw [hdrop, dqUnescape_dqEsc v h]
  rfl

theorem charLe_iff (a b : Char) : a ≤ b ↔ a.toNat ≤ b.toNat := by
  rw [Char.le_def]
  exact UInt32.le_def

theorem isUpper_toNat (c : Char) (h : c.isUpper = true) : 65 ≤ c.toNat ∧ c.toNat ≤ 90 := by
  simp only [Char.isUpper, Bool.and_eq_true, decide_eq_true_eq] at h
  exact ⟨h.1, h.2⟩

theorem isLower_toNat (c : Char) (h : c.isLower = true) : 97 ≤ c.toNat ∧ c.toNat ≤ 122 := by
  simp only [Char.isLower, Bool.and_eq_true, decide_eq_true_eq] at h
  exact ⟨h.1, h.2⟩

theorem isDigit_toNat (c : Char) (h : c.isDigit = true) : 48 ≤ c.toNat ∧ c.toNat ≤ 57 := by
  simp only [Char.isDigit, Bool.and_eq_true, decide_eq_true_eq] at h
  exact ⟨h.1, h.2⟩

theorem isAlpha_ranges (c : Char) (h : c.isAlpha = true) :
    (65 ≤ c.toNat ∧ c.toNat ≤ 90) ∨ (97 ≤ c.toNat ∧ c.toNat ≤ 122) := by
  simp only [Char.isAlpha, Bool.or_eq_true] at h
  rcases h with h | h
  · exact Or.inl (isUpper_toNat c h)
  · exact Or.inr (isLower_toNat c h)

theorem isAlpha_not_digit (c : Char) (h : c.isAlpha = true) : c.isDigit = false := by
  cases hd : c.isDigit
  · rfl
  · exfalso
    obtain ⟨h1, h2⟩ := isDigit_toNat c hd
    rcases isAlpha_ranges c h with ⟨h3, h4⟩ | ⟨h3, h4⟩ <;> omega

theorem ne_of_class {f : Char → Bool} (c d : Char) (h : f c = true) (hd : f d = false) :
    c ≠ d := by
  intro he
  rw [he, hd] at h
  exact absurd h (by simp)

theorem titleChar_plainSafe (c : Char)
    (h : (c.isAlphanum || c == ' ' || c == '_' || c == '-') = true) : plainSafeChar c = true := by
  simp only [Bool.or_eq_true] at h
  rcases h with ((h | h) | h) | h <;> simp [plainSafeChar, h]

theorem printable_of_toNat (c : Char) (h1 : 32 ≤ c.toNat) (h2 : c.toNat ≤ 126) :
    isPrintableAscii c = true := by
  simp only [isPrintableAscii, Bool.and_eq_true, decide_eq_true_eq]
  exact ⟨(charLe_iff ' ' c).mpr h1, h2⟩

theorem titleChar_toNat (c : Char)
    (h : (c.isAlphanum || c == ' ' || c == '_' || c == '-') = true) :
    32 ≤ c.toNat ∧ c.toNat ≤ 126 := by
  simp only [Bool.or_eq_true, beq_iff_eq] at h
  rcases h with ((h | h) | h) | h
  · simp only [Char.isAlphanum, Bool.or_eq_true] at h
    rcases h with h | h
    · rcases isAlpha_ranges c h with ⟨h1, h2⟩ | ⟨h1, h2⟩ <;> omega
    · have := isDigit_toNat c h
      omega
  · subst h; decide
  · subst h; decide
  · subst h; decide

theorem nowChar_toNat (c : Char)
    (h : (c.isDigit || c == '-' || c == ':' || c == ' ') = true) :
    32 ≤ c.toNat ∧ c.toNat ≤ 126 := by
  simp only [Bool.or_eq_true, beq_iff_eq] at h
  rcases h with ((h | h) | h) | h
  · have := isDigit_toNat c h
    omega
  · subst h; decide
  · subst h; decide
  · subst h; decide

theorem parseVal_plain (v : PyStr) (h : plainStyleOk v = true) : parseVal v = some (.str v) := by
  simp only [plainStyleOk, Bool.and_eq_true, Bool.not_eq_true', bne_iff_ne, ne_eq] at h
  obtain ⟨⟨⟨⟨⟨⟨h1, h2⟩, h3⟩, h4⟩, h5⟩, h6⟩, h7⟩ := h
  cases v with
  | nil => simp at h1
  | cons a t =>
    have ha : plainSafeChar a = true := by
      rw [List.all_cons, Bool.and_eq_true] at h2
      exact h2.1
    unfold parseVal
    rw [if_neg (by
      simp only [List.head?_cons, Option.some.injEq]
      exact ne_of_class (f := plainSafeChar) a '\'' ha (by decide))]
    rw [if_neg (by
      simp only [List.head?_cons, Option.some.injEq]
      exact ne_of_class (f := plainSafeChar) a '"' ha (by decide))]
    rw [if_neg (show ¬ ((a :: t : PyStr) = strL "true") by
      intro he
      rw [he] at h6
      exact absurd h6 (by decide))]
    rw [if_neg (show ¬ ((a :: t : PyStr) = strL "false") by
      intro he
      rw [he] at h6
      exact absurd h6 (by decide))]
    rw [if_neg (show ¬ ((a :: t : PyStr) = strL "[]") by
      intro he
      rw [he] at h2
      exact absurd h2 (by decide))]
    rw [if_neg (by rw [h7]; simp)]

theorem parseItem_plain (v : PyStr) (h : plainStyleOk v = true) : parseItem v = some v := by
  simp only [plainStyleOk, Bool.and_eq_true, Bool.not_eq_true', bne_iff_ne, ne_eq] at h
  obtain ⟨⟨⟨⟨⟨⟨h1, h2⟩, h3⟩, h4⟩, h5⟩, h6⟩, h7⟩ := h
  cases v with
  | nil => simp at h1
  | cons a t =>
    have ha : plainSafeChar a = true := by
      rw [List.all_cons, Bool.and_eq_true] at h2
      exact h2.1
    unfold parseItem
    rw [if_neg (by
      simp only [List.head?_cons, Option.some.injEq]
      exact ne_of_class (f := plainSafeChar) a '\'' ha (by decide))]
    rw [if_neg (by
      simp only [List.head?_cons, Option.some.injEq]
      exact ne_of_class (f := plainSafeChar) a '"' ha (by decide))]

theorem parseVal_dumpScalar (v : PyStr) (hA : v.all isPrintableAscii = true) :
    parseVal (dumpScalar v) = some (.str v) := by
  unfold dumpScalar
  by_cases hp : plainStyleOk v = true
  · rw [if_pos hp]
    exact parseVal_plain v hp
  · rw [if_neg hp, if_pos hA]
    exact parseVal_sqQuote v

theorem parseItem_dumpScalar (v : PyStr) (hA : v.all isPrintableAscii = true) :
    parseItem (dumpScalar v) = some v := by
  unfold dumpScalar
  by_cases hp : plainStyleOk v = true
  · rw [if_pos hp]
    exact parseItem_plain v hp
  · rw [if_neg hp, if_pos hA]
    exact parseItem_sqQuote v

theorem TitleOk_parts (t : PyStr) (h : TitleOk t = true) :
    t.isEmpty = false ∧ (t.headD ' ').isAlpha = true ∧
      (∀ c ∈ t, (c.isAlphanum || c == ' ' || c == '_' || c == '-') = true) ∧
      ¬ t.getLast? = some ' ' ∧ has3Dash t = false ∧ yamlKws.contains t = false := by
  simp only [TitleOk, Bool.and_eq_true, Bool.not_eq_true', bne_iff_ne, ne_eq,
    decide_eq_true_eq] at h
  obtain ⟨⟨⟨⟨⟨⟨h1, h2⟩, h3⟩, h4⟩, h5⟩, h6⟩, h7⟩ := h
  exact ⟨h1, h3, List.all_eq_true.mp h4, h5, h6, h7⟩

theorem TitleOk_plainStyleOk (t : PyStr) (h : TitleOk t = true) : plainStyleOk t = true := by
  obtain ⟨h1, h3, h4, h5, _, h7⟩ := TitleOk_parts t h
  cases t with
  | nil => simp at h1
  | cons a s =>
    have ha : a.isAlpha = true := by simpa using h3
    simp only [plainStyleOk, Bool.and_eq_true, Bool.not_eq_true', bne_iff_ne, ne_eq]
    refine ⟨⟨⟨⟨⟨⟨by simpa using h1, ?_⟩, ?_⟩, ?_⟩, h5⟩, h7⟩, ?_⟩
    · rw [List.all_eq_true]
      intro c hc
      exact titleChar_plainSafe c (h4 c hc)
    · simp only [List.head?_cons, Option.some.injEq]
      exact ne_of_class (f := Char.isAlpha) a ' ' ha (by decide)
    · simp only [List.head?_cons, Option.some.injEq]
      exact ne_of_class (f := Char.isAlpha) a '-' ha (by decide)
    · have hne : ¬ a = '+' := ne_of_class (f := Char.isAlpha) a '+' ha (by decide)
      have hn0 : ¬ a = '0' := ne_of_class (f := Char.isAlpha) a '0' ha (by decide)
      have hnd : a.isDigit = false := isAlpha_not_digit a ha
      simp [intLike, hne, hn0, hnd]

theorem TitleOk_printable (t : PyStr) (h : TitleOk t = true) :
    t.all isPrintableAscii = true := by
  obtain ⟨_, _, h4, _, _, _⟩ := TitleOk_parts t h
  rw [List.all_eq_true]
  intro c hc
  obtain ⟨hb1, hb2⟩ := titleChar_toNat c (h4 c hc)
  exact printable_of_toNat c hb1 hb2

theorem dumpScalar_of_plain (v : PyStr) (h : plainStyleOk v = true) : dumpScalar v = v := by
  unfold dumpScalar
  rw [if_pos h]

theorem NowOk_parts (n : PyStr) (h : NowOk n = true) :
    n.isEmpty = false ∧ (∀ c ∈ n, (c.isDigit || c == '-' || c == ':' || c == ' ') = true) ∧
      n.getLast? = some ' ' ∧ has3Dash n = false := by
  simp only [NowOk, Bool.and_eq_true, Bool.not_eq_true', beq_iff_eq, decide_eq_true_eq] at h
  obtain ⟨⟨⟨⟨h1, h2⟩, h3⟩, h4⟩, h5⟩ := h
  exact ⟨h1, List.all_eq_true.mp h3, h4, h5⟩

theorem NowOk_printable (n : PyStr) (h : NowOk n = true) :
    n.all isPrintableAscii = true := by
  obtain ⟨_, h2, _, _⟩ := NowOk_parts n h
  rw [List.all_eq_true]
  intro c hc
  obtain ⟨hb1, hb2⟩ := nowChar_toNat c (h2 c hc)
  exact printable_of_toNat c hb1 hb2

theorem dumpScalar_of_now (n : PyStr) (h : NowOk n = true) : dumpScalar n = sqQuote n := by
  obtain ⟨h1, _, h3, _⟩ := NowOk_parts n h
  unfold dumpScalar
  rw [if_neg, if_pos (NowOk_printable n h)]
  simp only [plainStyleOk, Bool.and_eq_true, Bool.not_eq_true', bne_iff_ne, ne_eq]
  intro hcon
  exact hcon.1.1.2 h3

theorem sqEscape_id (v : PyStr) (h : ∀ c ∈ v, ¬ c = '\'') : sqEscape v = v := by
  induction v with
  | nil => rfl
  | cons c t ih =>
    show (if c = '\'' then '\'' :: '\'' :: sqEscape t else c :: sqEscape t) = c :: t
    rw [if_neg (h c (List.mem_cons_self _ _)), ih (fun x hx => h x (List.mem_cons_of_mem _ hx))]

theorem digitChar_toNat (m : Nat) : (digitChar m).toNat = 48 + m % 10 := by
  have hm : m % 10 < 10 := Nat.mod_lt _ (by norm_num)
  unfold digitChar
  generalize m % 10 = k at hm ⊢
  interval_cases k <;> decide

theorem digitChar_isDigit (m : Nat) : (digitChar m).isDigit = true := by
  have hm : m % 10 < 10 := Nat.mod_lt _ (by norm_num)
  unfold digitChar
  generalize m % 10 = k at hm
  interval_cases k <;> decide

theorem natToCharsAux_digits : ∀ fuel n : Nat, ∀ c ∈ natToCharsAux fuel n, c.isDigit = true := by
  intro fuel
  induction fuel with
  | zero => intro n c hc; simp [natToCharsAux] at hc
  | succ f ih =>
    intro n c hc
    unfold natToCharsAux at hc
    by_cases hn : n < 10
    · rw [if_pos hn] at hc
      rw [List.mem_singleton] at hc
      subst hc
      exact digitChar_isDigit n
    · rw [if_neg hn] at hc
      rw [List.mem_append] at hc
      rcases hc with hc | hc
      · exact ih _ c hc
      · rw [List.mem_singleton] at hc
        subst hc
        exact digitChar_isDigit _

theorem natToChars_digits (n : Nat) : ∀ c ∈ natToChars n, c.isDigit = true :=
  natToCharsAux_digits (n + 1) n

theorem natToCharsAux_ne_nil (fuel n : Nat) (h : 0 < fuel) : natToCharsAux fuel n ≠ [] := by
  cases fuel with
  | zero => omega
  | succ f =>
    unfold natToCharsAux
    by_cases hn : n < 10
    · rw [if_pos hn]
      simp
    · rw [if_neg hn]
      simp

theorem natToChars_ne_nil (n : Nat) : natToChars n ≠ [] :=
  natToCharsAux_ne_nil (n + 1) n (by omega)

theorem fmt2dp_chars (q : ℚ) : ∀ c ∈ fmt2dp q, c.isDigit = true ∨ c = '.' := by
  intro c hc
  unfold fmt2dp at hc
  rw [List.append_assoc, List.mem_append] at hc
  rcases hc with hc | hc
  · exact Or.inl (natToCharsAux_digits _ _ c hc)
  · rw [List.mem_append] at hc
    rcases hc with hc | hc
    · rw [List.mem_singleton] at hc
      exact Or.inr hc
    · unfold twoDigits at hc
      rw [List.mem_cons, List.mem_singleton] at hc
      rcases hc with hc | hc
      · subst hc
        exact Or.inl (digitChar_isDigit _)
      · subst hc
        exact Or.inl (digitChar_isDigit _)

theorem convStr_lt (q : ℚ) : ∀ c ∈ strL "η ≈ " ++ fmt2dp q, c.toNat < 65536 := by
  intro c hc
  rw [List.mem_append] at hc
  rcases hc with hc | hc
  · fin_cases hc <;> decide
  · rcases fmt2dp_chars q c hc with h | h
    · have := isDigit_toNat c h
      omega
    · subst h
      decide

theorem dumpScalar_conv (X : PyStr) :
    dumpScalar (strL "η ≈ " ++ X) = dqQuote (strL "η ≈ " ++ X) := by
  have h1 : plainStyleOk (strL "η ≈ " ++ X) = false := by
    simp only [plainStyleOk]
    have : (strL "η ≈ " ++ X).all plainSafeChar = false := by
      show (('η' :: (strL " ≈ " ++ X)) : PyStr).all plainSafeChar = false
      rw [List.all_cons]
      rw [show plainSafeChar 'η' = false from by decide]
      rfl
    rw [this]
    simp
  have h2 : (strL "η ≈ " ++ X).all isPrintableAscii = false := by
    show (('η' :: (strL " ≈ " ++ X)) : PyStr).all isPrintableAscii = false
    rw [List.all_cons]
    rw [show isPrintableAscii 'η' = false from by decide]
    rfl
  unfold dumpScalar
  rw [h1, h2]
  simp

theorem getD_mem_or_default : ∀ (l : PyStr) (n : Nat) (d : Char),
    l.getD n d ∈ l ∨ l.getD n d = d := by
  intro l
  induction l with
  | nil => intro n d; right; cases n <;> rfl
  | cons a t ih =>
    intro n d
    cases n with
    | zero => left; exact List.mem_cons_self _ _
    | succ m =>
      rcases ih m d with h | h
      · left
        exact List.mem_cons_of_mem _ h
      · right
        exact h

theorem b64Char_mem (n : Nat) : b64Char n ∈ b64Chars := by
  unfold b64Char
  rcases getD_mem_or_default b64Chars n 'A' with h | h
  · exact h
  · rw [h]
    decide

theorem mem_b64encode : ∀ bs : List Nat, ∀ c ∈ b64encode bs, c ∈ b64Chars ∨ c = '=' := by
  intro bs
  induction bs using b64encode.induct with
  | case1 =>
    intro c hc
    simp [b64encode] at hc
  | case2 a =>
    intro c hc
    simp only [b64encode, List.mem_cons, List.not_mem_nil, or_false] at hc
    rcases hc with hc | hc | hc | hc
    · exact Or.inl (hc ▸ b64Char_mem _)
    · exact Or.inl (hc ▸ b64Char_mem _)
    · exact Or.inr hc
    · exact Or.inr hc
  | case3 a b =>
    intro c hc
    simp only [b64encode, List.mem_cons, List.not_mem_nil, or_false] at hc
    rcases hc with hc | hc | hc | hc
    · exact Or.inl (hc ▸ b64Char_mem _)
    · exact Or.inl (hc ▸ b64Char_mem _)
    · exact Or.inl (hc ▸ b64Char_mem _)
    · exact Or.inr hc
  | case4 a b c' rest ih =>
    intro c hc
    simp only [b64encode, List.mem_cons] at hc
    rcases hc with hc | hc | hc | hc | hc
    · exact Or.inl (hc ▸ b64Char_mem _)
    · exact Or.inl (hc ▸ b64Char_mem _)
    · exact Or.inl (hc ▸ b64Char_mem _)
    · exact Or.inl (hc ▸ b64Char_mem _)
    · exact ih c hc

theorem b64encode_charFacts (bs : List Nat) :
    ∀ c ∈ b64encode bs, isPrintableAscii c = true ∧ ¬ c = '-' ∧ ¬ c = '\n' := by
  intro c hc
  have hset : ∀ x ∈ b64Chars, isPrintableAscii x = true ∧ ¬ x = '-' ∧ ¬ x = '\n' := by decide
  rcases mem_b64encode bs c hc with h | h
  · exact hset c h
  · subst h
    exact ⟨by decide, by decide, by decide⟩

theorem b64encode_printable (bs : List Nat) : (b64encode bs).all isPrintableAscii = true := by
  rw [List.all_eq_true]
  intro c hc
  exact (b64encode_charFacts bs c hc).1

theorem natToCharsAux_head : ∀ fuel n : Nat, 1 ≤ n → n < fuel →
    ∃ c, (natToCharsAux fuel n).head? = some c ∧ 49 ≤ c.toNat ∧ c.toNat ≤ 57 := by
  intro fuel
  induction fuel with
  | zero =>
    intro n h1 h2
    omega
  | succ f ih =>
    intro n h1 h2
    unfold natToCharsAux
    by_cases hn : n < 10
    · rw [if_pos hn]
      refine ⟨digitChar n, rfl, ?_, ?_⟩ <;> rw [digitChar_toNat] <;> omega
    · rw [if_neg hn]
      have h1' : 1 ≤ n / 10 := by omega
      have h2' : n / 10 < f := by omega
      obtain ⟨c, hc, hb1, hb2⟩ := ih (n / 10) h1' h2'
      refine ⟨c, ?_, hb1, hb2⟩
      cases hxs : natToCharsAux f (n / 10) with
      | nil => exact absurd hxs (natToCharsAux_ne_nil f (n / 10) (by omega))
      | cons x xs =>
        rw [hxs] at hc
        simp only [List.head?_cons] at hc
        simp only [List.cons_append, List.head?_cons]
        exact hc

theorem intLike_natToChars (n : Nat) : intLike (natToChars n) = true := by
  by_cases h0 : n = 0
  · subst h0
    decide
  · obtain ⟨c, hc, hb1, hb2⟩ := natToCharsAux_head (n + 1) n (by omega) (by omega)
    cases hv : natToChars n with
    | nil => exact absurd hv (natToChars_ne_nil n)
    | cons a t =>
      have hca : c = a := by
        rw [show natToCharsAux (n + 1) n = natToChars n from rfl, hv] at hc
        simp only [List.head?_cons, Option.some.injEq] at hc
        exact hc.symm
      subst hca
      have hplus : ¬ c = '+' := by
        intro he
        subst he
        exact absurd hb1 (by decide)
      have hzero : ¬ c = '0' := by
        intro he
        subst he
        exact absurd hb1 (by decide)
      have hall : (c :: t).all Char.isDigit = true := by
        rw [← hv, List.all_eq_true]
        intro x hx
        exact natToChars_digits n x hx
      rw [hv] at *
      simp [intLike, hplus, hzero, hall]

theorem parseVal_natToChars (n : Nat) :
    parseVal (natToChars n) = some (.nat (digitsToNat (natToChars n))) := by
  have hall := natToChars_digits n
  have hint := intLike_natToChars n
  cases hv : natToChars n with
  | nil => exact absurd hv (natToChars_ne_nil n)
  | cons a t =>
    rw [hv] at hall hint
    have ha : a.isDigit = true := hall a (List.mem_cons_self _ _)
    unfold parseVal
    rw [if_neg (by
      simp only [List.head?_cons, Option.some.injEq]
      exact ne_of_class (f := Char.isDigit) a '\'' ha (by decide))]
    rw [if_neg (by
      simp only [List.head?_cons, Option.some.injEq]
      exact ne_of_class (f := Char.isDigit) a '"' ha (by decide))]
    rw [if_neg (show ¬ ((a :: t : PyStr) = strL "true") by
      intro he
      rw [he] at hall
      exact absurd (hall 'r' (by decide)) (by decide))]
    rw [if_neg (show ¬ ((a :: t : PyStr) = strL "false") by
      intro he
      rw [he] at hall
      exact absurd (hall 'f' (by decide)) (by decide))]
    rw [if_neg (show ¬ ((a :: t : PyStr) = strL "[]") by
      intro he
      rw [he] at hall
      exact absurd (hall '[' (by decide)) (by decide))]
    rw [if_pos hint]

theorem mem_sqEscape (v : PyStr) (c : Char) (hc : c ∈ sqEscape v) : c ∈ v ∨ c = '\'' := by
  induction v with
  | nil => simp [sqEscape] at hc
  | cons a t ih =>
    have hstep : sqEscape (a :: t) =
        if a = '\'' then '\'' :: '\'' :: sqEscape t else a :: sqEscape t := rfl
    rw [hstep] at hc
    by_cases ha : a = '\''
    · rw [if_pos ha] at hc
      rw [List.mem_cons, List.mem_cons] at hc
      rcases hc with hc | hc | hc
      · exact Or.inr hc
      · exact Or.inr hc
      · rcases ih hc with h | h
        · exact Or.inl (List.mem_cons_of_mem _ h)
        · exact Or.inr h
    · rw [if_neg ha] at hc
      rw [List.mem_cons] at hc
      rcases hc with hc | hc
      · exact Or.inl (hc ▸ List.mem_cons_self _ _)
      · rcases ih hc with h | h
        · exact Or.inl (List.mem_cons_of_mem _ h)
        · exact Or.inr h

theorem hex4_mem (n : Nat) (x : Char) (hx : x ∈ hex4 n) : x ∈ hexDigitsU := by
  unfold hex4 at hx
  rw [List.mem_cons, List.mem_cons, List.mem_cons, List.mem_singleton] at hx
  rcases hx with hx | hx | hx | hx <;>
    · subst hx
      rcases getD_mem_or_default hexDigitsU _ '0' with h | h
      · exact h
      · rw [h]
        decide

theorem hex2_mem (n : Nat) (x : Char) (hx : x ∈ hex2 n) : x ∈ hexDigitsU := by
  unfold hex2 at hx
  rw [List.mem_cons, List.mem_singleton] at hx
  rcases hx with hx | hx <;>
    · subst hx
      rcases getD_mem_or_default hexDigitsU _ '0' with h | h
      · exact h
      · rw [h]
        decide

theorem mem_dqEscChar (c x : Char) (hx : x ∈ dqEscChar c) :
    x = c ∨ x = '\\' ∨ x = 'u' ∨ x = 'x' ∨ x ∈ hexDigitsU := by
  unfold dqEscChar at hx
  by_cases h1 : (c == '"' || c == '\\') = true
  · rw [if_pos h1] at hx
    rw [List.mem_cons, List.mem_singleton] at hx
    rcases hx with hx | hx
    · exact Or.inr (Or.inl hx)
    · exact Or.inl hx
  · rw [if_neg h1] at hx
    by_cases h2 : isPrintableAscii c = true
    · rw [if_pos h2] at hx
      rw [List.mem_singleton] at hx
      exact Or.inl hx
    · rw [if_neg h2] at hx
      by_cases h3 : c.toNat ≤ 255
      · rw [if_pos h3] at hx
        rw [List.mem_cons, List.mem_cons] at hx
        rcases hx with hx | hx | hx
        · exact Or.inr (Or.inl hx)
        · exact Or.inr (Or.inr (Or.inr (Or.inl hx)))
        · exact Or.inr (Or.inr (Or.inr (Or.inr (hex2_mem _ x hx))))
      · rw [if_neg h3] at hx
        rw [List.mem_cons, List.mem_cons] at hx
        rcases hx with hx | hx | hx
        · exact Or.inr (Or.inl hx)
        · exact Or.inr (Or.inr (Or.inl hx))
        · exact Or.inr (Or.inr (Or.inr (Or.inr (hex4_mem _ x hx))))

theorem mem_dqEsc (v : PyStr) (x : Char) (hx : x ∈ dqEsc v) :
    x ∈ v ∨ x = '\\' ∨ x = 'u' ∨ x = 'x' ∨ x ∈ hexDigitsU := by
  induction v with
  | nil => simp [dqEsc] at hx
  | cons c t ih =>
    rw [dqEsc_cons, List.mem_append] at hx
    rcases hx with hx | hx
    · rcases mem_dqEscChar c x hx with h | h
      · exact Or.inl (h ▸ List.mem_cons_self _ _)
      · exact Or.inr h
    · rcases ih hx with h | h
      · exact Or.inl (List.mem_cons_of_mem _ h)
      · exact Or.inr h

theorem has3Dash_cons_ne (a : Char) (t : PyStr) (ha : ¬ a = '-') (ht : has3Dash t = false) :
    has3Dash (a :: t) = false := by
  show ((a == '-' && (strL "--").isPrefixOf t) || has3Dash t) = false
  rw [ht, Bool.or_false]
  simp [ha]

theorem has3Dash_glue_nl (a b' : PyStr) (ha : has3Dash a = false) (hb : has3Dash b' = false) :
    has3Dash (a ++ '\n' :: b') = false := by
  induction a with
  | nil =>
    simp only [List.nil_append]
    exact has3Dash_cons_ne '\n' b' (by decide) hb
  | cons x a' ih =>
    have ha' : has3Dash a' = false := has3Dash_cons_false _ _ ha
    simp only [has3Dash, Bool.or_eq_false_iff, Bool.and_eq_false_iff] at ha
    show ((x == '-' && (strL "--").isPrefixOf (a' ++ '\n' :: b')) || has3Dash (a' ++ '\n' :: b')) =
      false
    rw [ih ha', Bool.or_false]
    by_cases hx : x = '-'
    · subst hx
      rw [show (('-' : Char) == '-') = true from rfl, Bool.true_and]
      cases a' with
      | nil => rfl
      | cons y a'' =>
        cases a'' with
        | nil =>
          show (('-' == y) && (strL "-").isPrefixOf ('\n' :: b')) = false
          rw [show (strL "-").isPrefixOf ('\n' :: b') = false from rfl]
          exact Bool.and_false _
        | cons z a''' =>
          have hpa' : (strL "--").isPrefixOf (y :: z :: a''') = false := by
            rcases ha.1 with h | h
            · exact absurd h (by decide)
            · exact h
          cases hp : (strL "--").isPrefixOf ((y :: z :: a''') ++ '\n' :: b') with
          | false => rfl
          | true =>
            exfalso
            have h1 := List.isPrefixOf_iff_prefix.mp hp
            rw [show (strL "--") = ('-' :: '-' :: ([] : PyStr)) from rfl] at h1
            rw [List.cons_append, List.cons_append] at h1
            obtain ⟨hy, h2⟩ := List.cons_prefix_cons.mp h1
            obtain ⟨hz, _⟩ := List.cons_prefix_cons.mp h2
            have h3 : (strL "--").isPrefixOf (y :: z :: a''') = true := by
              apply List.isPrefixOf_iff_prefix.mpr
              rw [show (strL "--") = ('-' :: '-' :: ([] : PyStr)) from rfl]
              exact List.cons_prefix_cons.mpr ⟨hy, List.cons_prefix_cons.mpr ⟨hz, List.nil_prefix⟩⟩
            rw [h3] at hpa'
            exact absurd hpa' (by simp)
    · simp [hx]

theorem has3Dash_interNL (L : List PyStr) (h : ∀ l ∈ L, has3Dash l = false) :
    has3Dash (interNL L) = false := by
  induction L with
  | nil => rfl
  | cons l rest ih =>
    cases rest with
    | nil => exact h l (List.mem_cons_self _ _)
    | cons l2 r2 =>
      show has3Dash (l ++ '\n' :: interNL (l2 :: r2)) = false
      exact has3Dash_glue_nl l _ (h l (List.mem_cons_self _ _))
        (ih (fun x hx => h x (List.mem_cons_of_mem _ hx)))

theorem charOk_lt (c : Char) (h : CharOk c = true) : c.toNat < 65536 := by
  simp only [CharOk, Bool.or_eq_true, Bool.and_eq_true, decide_eq_true_eq] at h
  rcases h with h | h
  · simp only [isPrintableAscii, Bool.and_eq_true, decide_eq_true_eq] at h
    omega
  · omega

theorem valOk_parts (v : PyStr) (h : ValOk v = true) :
    (∀ c ∈ v, CharOk c = true) ∧ has3Dash v = false := by
  simp only [ValOk, Bool.and_eq_true, Bool.not_eq_true'] at h
  exact ⟨List.all_eq_true.mp h.1, h.2⟩

theorem has3Dash_glue_hd : ∀ (a : PyStr) (c0 : Char) (b' : PyStr), has3Dash a = false →
    ¬ c0 = '-' → has3Dash (c0 :: b') = false → has3Dash (a ++ c0 :: b') = false := by
  intro a
  induction a with
  | nil =>
    intro c0 b' _ _ hb
    simpa using hb
  | cons x a' ih =>
    intro c0 b' ha hc0 hb
    have ha' : has3Dash a' = false := has3Dash_cons_false _ _ ha
    simp only [has3Dash, Bool.or_eq_false_iff, Bool.and_eq_false_iff] at ha
    show ((x == '-' && (strL "--").isPrefixOf (a' ++ c0 :: b')) ||
      has3Dash (a' ++ c0 :: b')) = false
    rw [ih c0 b' ha' hc0 hb, Bool.or_false]
    by_cases hx : x = '-'
    · subst hx
      rw [show (('-' : Char) == '-') = true from rfl, Bool.true_and]
      cases a' with
      | nil =>
        simp only [List.nil_append]
        cases hp : (strL "--").isPrefixOf (c0 :: b') with
        | false => rfl
        | true =>
          exfalso
          have h1 := List.isPrefixOf_iff_prefix.mp hp
          rw [show (strL "--") = ('-' :: '-' :: ([] : PyStr)) from rfl] at h1
          obtain ⟨hy, _⟩ := List.cons_prefix_cons.mp h1
          exact hc0 hy.symm
      | cons y a2 =>
        cases a2 with
        | nil =>
          simp only [List.cons_append, List.nil_append]
          cases hp : (strL "--").isPrefixOf (y :: c0 :: b') with
          | false => rfl
          | true =>
            exfalso
            have h1 := List.isPrefixOf_iff_prefix.mp hp
            rw [show (strL "--") = ('-' :: '-' :: ([] : PyStr)) from rfl] at h1
            obtain ⟨_, h2⟩ := List.cons_prefix_cons.mp h1
            obtain ⟨hy2, _⟩ := List.cons_prefix_cons.mp h2
            exact hc0 hy2.symm
        | cons z a3 =>
          have hpa' : (strL "--").isPrefixOf (y :: z :: a3) = false := by
            rcases ha.1 with h | h
            · exact absurd h (by decide)
            · exact h
          cases hp : (strL "--").isPrefixOf ((y :: z :: a3) ++ c0 :: b') with
          | false => rfl
          | true =>
            exfalso
            have h1 := List.isPrefixOf_iff_prefix.mp hp
            rw [show (strL "--") = ('-' :: '-' :: ([] : PyStr)) from rfl] at h1
            rw [List.cons_append, List.cons_append] at h1
            obtain ⟨hy, h2⟩ := List.cons_prefix_cons.mp h1
            obtain ⟨hz, _⟩ := List.cons_prefix_cons.mp h2
            have h3 : (strL "--").isPrefixOf (y :: z :: a3) = true := by
              apply List.isPrefixOf_iff_prefix.mpr
              rw [show (strL "--") = ('-' :: '-' :: ([] : PyStr)) from rfl]
              exact List.cons_prefix_cons.mpr ⟨hy, List.cons_prefix_cons.mpr ⟨hz, List.nil_prefix⟩⟩
            rw [h3] at hpa'
            exact absurd hpa' (by simp)
    · simp [hx]

theorem sqEscape_prefix2 (t : PyStr) (hp : (strL "--").isPrefixOf (sqEscape t) = true) :
    (strL "--").isPrefixOf t = true := by
  cases t with
  | nil => exact absurd hp (by decide)
  | cons d t' =>
    have hstep : sqEscape (d :: t') =
        if d = '\'' then '\'' :: '\'' :: sqEscape t' else d :: sqEscape t' := rfl
    by_cases hd : d = '\''
    · rw [hstep, if_pos hd] at hp
      have h1 := List.isPrefixOf_iff_prefix.mp hp
      rw [show (strL "--") = ('-' :: '-' :: ([] : PyStr)) from rfl] at h1
      obtain ⟨hy, _⟩ := List.cons_prefix_cons.mp h1
      exact absurd hy (by decide)
    · rw [hstep, if_neg hd] at hp
      have hpp := List.isPrefixOf_iff_prefix.mp hp
      rw [show (strL "--") = ('-' :: '-' :: ([] : PyStr)) from rfl] at hpp
      obtain ⟨h1, h2⟩ := List.cons_prefix_cons.mp hpp
      cases t' with
      | nil =>
        rw [show sqEscape ([] : PyStr) = [] from rfl] at h2
        exact absurd h2 (by simp)
      | cons e t2 =>
        have hstep2 : sqEscape (e :: t2) =
            if e = '\'' then '\'' :: '\'' :: sqEscape t2 else e :: sqEscape t2 := rfl
        by_cases he : e = '\''
        · rw [hstep2, if_pos he] at h2
          obtain ⟨h3, _⟩ := List.cons_prefix_cons.mp h2
          exact absurd h3 (by decide)
        · rw [hstep2, if_neg he] at h2
          obtain ⟨h3, _⟩ := List.cons_prefix_cons.mp h2
          apply List.isPrefixOf_iff_prefix.mpr
          rw [show (strL "--") = ('-' :: '-' :: ([] : PyStr)) from rfl]
          exact List.cons_prefix_cons.mpr ⟨h1, List.cons_prefix_cons.mpr ⟨h3, List.nil_prefix⟩⟩

theorem has3Dash_sqEscape (v : PyStr) (h : has3Dash v = false) :
    has3Dash (sqEscape v) = false := by
  induction v with
  | nil => rfl
  | cons c t ih =>
    have hparts : ((c == '-' && (strL "--").isPrefixOf t) = false) ∧ has3Dash t = false := by
      simpa [has3Dash, Bool.or_eq_false_iff] using h
    have ih' := ih hparts.2
    have hstep : sqEscape (c :: t) =
        if c = '\'' then '\'' :: '\'' :: sqEscape t else c :: sqEscape t := rfl
    rw [hstep]
    by_cases hc : c = '\''
    · rw [if_pos hc]
      exact has3Dash_cons_ne _ _ (by decide) (has3Dash_cons_ne _ _ (by decide) ih')
    · rw [if_neg hc]
      by_cases hcd : c = '-'
      · subst hcd
        show ((('-' == '-') && (strL "--").isPrefixOf (sqEscape t)) ||
          has3Dash (sqEscape t)) = false
        rw [ih', Bool.or_false, show (('-' : Char) == '-') = true from rfl, Bool.true_and]
        cases hpp : (strL "--").isPrefixOf (sqEscape t) with
        | false => rfl
        | true =>
          exfalso
          have h := hparts.1
          rw [show (('-' : Char) == '-') = true from rfl, Bool.true_and,
            sqEscape_prefix2 t hpp] at h
          exact absurd h (by simp)
      · exact has3Dash_cons_ne _ _ hcd ih'

theorem dqEscChar_head (f : Char) :
    ∃ x rest, dqEscChar f = x :: rest ∧ ((x = f ∧ isPrintableAscii f = true) ∨ x = '\\') := by
  unfold dqEscChar
  by_cases h1 : (f == '"' || f == '\\') = true
  · rw [if_pos h1]
    exact ⟨'\\', [f], rfl, Or.inr rfl⟩
  · rw [if_neg h1]
    by_cases h2 : isPrintableAscii f = true
    · rw [if_pos h2]
      exact ⟨f, [], rfl, Or.inl ⟨rfl, h2⟩⟩
    · rw [if_neg h2]
      by_cases h3 : f.toNat ≤ 255
      · rw [if_pos h3]
        exact ⟨'\\', _, rfl, Or.inr rfl⟩
      · rw [if_neg h3]
        exact ⟨'\\', _, rfl, Or.inr rfl⟩

theorem dqEsc_head_dash (t : PyStr) (hp : (strL "--").isPrefixOf (dqEsc t) = true) :
    (strL "--").isPrefixOf t = true := by
  cases t with
  | nil => exact absurd hp (by decide)
  | cons e t' =>
    rw [dqEsc_cons] at hp
    obtain ⟨x, rest, hxe, hx⟩ := dqEscChar_head e
    rw [hxe, List.cons_append] at hp
    have hpp := List.isPrefixOf_iff_prefix.mp hp
    rw [show (strL "--") = ('-' :: '-' :: ([] : PyStr)) from rfl] at hpp
    obtain ⟨h1, h2⟩ := List.cons_prefix_cons.mp hpp
    rcases hx with ⟨hxf, hprint⟩ | hbs
    · have he : e = '-' := by rw [← hxf, ← h1]
      subst he
      have hdc : dqEscChar '-' = ['-'] := by decide
      rw [hdc] at hxe
      have hrest : rest = [] := by
        have h4 := hxe
        injection h4 with _ h5
        exact h5.symm
      subst hrest
      rw [List.nil_append] at h2
      cases t' with
      | nil =>
        rw [show dqEsc ([] : PyStr) = [] from rfl] at h2
        exact absurd h2 (by simp)
      | cons f t2 =>
        rw [dqEsc_cons] at h2
        obtain ⟨x2, rest2, hxe2, hx2c⟩ := dqEscChar_head f
        rw [hxe2, List.cons_append] at h2
        obtain ⟨h3, _⟩ := List.cons_prefix_cons.mp h2
        rcases hx2c with ⟨hxf2, _⟩ | hbs2
        · have hf : f = '-' := by rw [← hxf2, ← h3]
          subst hf
          apply List.isPrefixOf_iff_prefix.mpr
          rw [show (strL "--") = ('-' :: '-' :: ([] : PyStr)) from rfl]
          exact List.cons_prefix_cons.mpr ⟨rfl, List.cons_prefix_cons.mpr ⟨rfl, List.nil_prefix⟩⟩
        · exact absurd (h3.trans hbs2) (by decide)
    · exact absurd (h1.trans hbs) (by decide)

theorem hexDigit_getD_facts (n : Nat) :
    hexDigitsU.getD n '0' ∈ hexDigitsU := by
  rcases getD_mem_or_default hexDigitsU n '0' with h | h
  · exact h
  · rw [h]
    decide

theorem has3Dash_dqEsc (v : PyStr) (h : has3Dash v = false) : has3Dash (dqEsc v) = false := by
  induction v with
  | nil => rfl
  | cons c t ih =>
    have hparts : ((c == '-' && (strL "--").isPrefixOf t) = false) ∧ has3Dash t = false := by
      simpa [has3Dash, Bool.or_eq_false_iff] using h
    have ih' := ih hparts.2
    rw [dqEsc_cons]
    have hnodash : ∀ y ∈ hexDigitsU, ¬ y = '-' := by decide
    by_cases h1 : (c == '"' || c == '\\') = true
    · have he : dqEscChar c = ['\\', c] := by
        unfold dqEscChar
        rw [if_pos h1]
      rw [he]
      show has3Dash ('\\' :: c :: dqEsc t) = false
      refine has3Dash_cons_ne _ _ (by decide) (has3Dash_cons_ne _ _ ?_ ih')
      have h1' : c = '"' ∨ c = '\\' := by
        simpa using h1
      rcases h1' with hq | hq
      · subst hq
        decide
      · subst hq
        decide
    · by_cases h2 : isPrintableAscii c = true
      · have he : dqEscChar c = [c] := by
          unfold dqEscChar
          rw [if_neg h1, if_pos h2]
        rw [he]
        show has3Dash (c :: dqEsc t) = false
        by_cases hcd : c = '-'
        · subst hcd
          show ((('-' == '-') && (strL "--").isPrefixOf (dqEsc t)) ||
            has3Dash (dqEsc t)) = false
          rw [ih', Bool.or_false, show (('-' : Char) == '-') = true from rfl, Bool.true_and]
          cases hpp : (strL "--").isPrefixOf (dqEsc t) with
          | false => rfl
          | true =>
            exfalso
            have h := hparts.1
            rw [show (('-' : Char) == '-') = true from rfl, Bool.true_and,
              dqEsc_head_dash t hpp] at h
            exact absurd h (by simp)
        · exact has3Dash_cons_ne _ _ hcd ih'
      · by_cases h3 : c.toNat ≤ 255
        · have he : dqEscChar c = '\\' :: 'x' :: hex2 c.toNat := by
            unfold dqEscChar
            rw [if_neg h1, if_neg h2, if_pos h3]
          rw [he]
          show has3Dash ('\\' :: 'x' :: (hex2 c.toNat ++ dqEsc t)) = false
          refine has3Dash_cons_ne _ _ (by decide) (has3Dash_cons_ne _ _ (by decide) ?_)
          refine has3Dash_glue (hex2 c.toNat) _ ?_ ih' ?_
          · refine has3Dash_of_no_dash _ (fun x hx => ?_)
            exact hnodash x (hex2_mem c.toNat x hx)
          · rw [show (hex2 c.toNat).getLast? = some (hexDigitsU.getD (c.toNat % 16) '0')
              from rfl]
            simp only [ne_eq, Option.some.injEq]
            exact hnodash _ (hexDigit_getD_facts _)
        · have he : dqEscChar c = '\\' :: 'u' :: hex4 c.toNat := by
            unfold dqEscChar
            rw [if_neg h1, if_neg h2, if_neg h3]
          rw [he]
          show has3Dash ('\\' :: 'u' :: (hex4 c.toNat ++ dqEsc t)) = false
          refine has3Dash_cons_ne _ _ (by decide) (has3Dash_cons_ne _ _ (by decide) ?_)
          refine has3Dash_glue (hex4 c.toNat) _ ?_ ih' ?_
          · refine has3Dash_of_no_dash _ (fun x hx => ?_)
            exact hnodash x (hex4_mem c.toNat x hx)
          · rw [show (hex4 c.toNat).getLast? = some (hexDigitsU.getD (c.toNat % 16) '0')
              from rfl]
            simp only [ne_eq, Option.some.injEq]
            exact hnodash _ (hexDigit_getD_facts _)

theorem dqEsc_printable (v : PyStr) : ∀ x ∈ dqEsc v, isPrintableAscii x = true := by
  induction v with
  | nil => intro x hx; simp [dqEsc] at hx
  | cons c t ih =>
    intro x hx
    have hhexp : ∀ y ∈ hexDigitsU, isPrintableAscii y = true := by decide
    rw [dqEsc_cons, List.mem_append] at hx
    rcases hx with hx | hx
    · unfold dqEscChar at hx
      by_cases h1 : (c == '"' || c == '\\') = true
      · rw [if_pos h1] at hx
        rw [List.mem_cons, List.mem_singleton] at hx
        rcases hx with hx | hx
        · subst hx
          decide
        · subst hx
          have h1' : x = '"' ∨ x = '\\' := by
            simpa using h1
          rcases h1' with hq | hq
          · subst hq
            decide
          · subst hq
            decide
      · rw [if_neg h1] at hx
        by_cases h2 : isPrintableAscii c = true
        · rw [if_pos h2] at hx
          rw [List.mem_singleton] at hx
          subst hx
          exact h2
        · rw [if_neg h2] at hx
          by_cases h3 : c.toNat ≤ 255
          · rw [if_pos h3] at hx
            rw [List.mem_cons, List.mem_cons] at hx
            rcases hx with hx | hx | hx
            · subst hx
              decide
            · subst hx
              decide
            · exact hhexp x (hex2_mem _ x hx)
          · rw [if_neg h3] at hx
            rw [List.mem_cons, List.mem_cons] at hx
            rcases hx with hx | hx | hx
            · subst hx
              decide
            · subst hx
              decide
            · exact hhexp x (hex4_mem _ x hx)
    · exact ih x hx

theorem parseItem_dqQuote (v : PyStr) (h : ∀ c ∈ v, c.toNat < 65536) :
    parseItem (dqQuote v) = some v := by
  show parseItem ('"' :: (dqEsc v ++ ['"'])) = some v
  unfold parseItem
  rw [if_neg (by simp),
    if_pos (show (('"' :: (dqEsc v ++ ['"'])) : PyStr).head? = some '"' from rfl)]
  have hlast : (('"' :: (dqEsc v ++ ['"'])) : PyStr).tail.getLast? = some '"' := by
    simp
  rw [if_pos hlast]
  have hdrop : (('"' :: (dqEsc v ++ ['"'])) : PyStr).tail.dropLast = dqEsc v := by
    simp
  rw [hdrop, dqUnescape_dqEsc v h]

theorem parseVal_dumpScalar_lt (v : PyStr) (h : ∀ c ∈ v, c.toNat < 65536) :
    parseVal (dumpScalar v) = some (.str v) := by
  unfold dumpScalar
  by_cases hp : plainStyleOk v = true
  · rw [if_pos hp]
    exact parseVal_plain v hp
  · rw [if_neg hp]
    by_cases hA : v.all isPrintableAscii = true
    · rw [if_pos hA]
      exact parseVal_sqQuote v
    · rw [if_neg hA]
      exact parseVal_dqQuote v h

theorem parseItem_dumpScalar_lt (v : PyStr) (h : ∀ c ∈ v, c.toNat < 65536) :
    parseItem (dumpScalar v) = some v := by
  unfold dumpScalar
  by_cases hp : plainStyleOk v = true
  · rw [if_pos hp]
    exact parseItem_plain v hp
  · rw [if_neg hp]
    by_cases hA : v.all isPrintableAscii = true
    · rw [if_pos hA]
      exact parseItem_sqQuote v
    · rw [if_neg hA]
      exact parseItem_dqQuote v h

theorem dump_value_facts (v : PyStr) (hOk : ValOk v = true) :
    has3Dash (dumpScalar v) = false ∧ (∀ c ∈ dumpScalar v, ¬ c = '\n') := by
  obtain ⟨hchars, h3⟩ := valOk_parts v hOk
  unfold dumpScalar
  by_cases hp : plainStyleOk v = true
  · rw [if_pos hp]
    exact ⟨h3, fun c hc => ne_of_class (f := CharOk) c '\n' (hchars c hc) (by decide)⟩
  · rw [if_neg hp]
    by_cases hA : v.all isPrintableAscii = true
    · rw [if_pos hA]
      constructor
      · show has3Dash ('\'' :: (sqEscape v ++ ['\''])) = false
        refine has3Dash_cons_ne _ _ (by decide) ?_
        exact has3Dash_glue_hd (sqEscape v) '\'' [] (has3Dash_sqEscape v h3) (by decide)
          (by decide)
      · intro c hc
        rcases List.mem_cons.mp hc with hc | hc
        · subst hc
          decide
        · rcases List.mem_append.mp hc with hc | hc
          · rcases mem_sqEscape v c hc with hm | hm
            · exact ne_of_class (f := CharOk) c '\n' (hchars c hm) (by decide)
            · subst hm
              decide
          · rw [List.mem_singleton] at hc
            subst hc
            decide
    · rw [if_neg hA]
      constructor
      · show has3Dash ('"' :: (dqEsc v ++ ['"'])) = false
        refine has3Dash_cons_ne _ _ (by decide) ?_
        exact has3Dash_glue_hd (dqEsc v) '"' [] (has3Dash_dqEsc v h3) (by decide) (by decide)
      · intro c hc
        rcases List.mem_cons.mp hc with hc | hc
        · subst hc
          decide
        · rcases List.mem_append.mp hc with hc | hc
          · exact ne_of_class (f := isPrintableAscii) c '\n' (dqEsc_printable v c hc)
              (by decide)
          · rw [List.mem_singleton] at hc
            subst hc
            decide

theorem parseItem_motif (m : PyStr) (h : ValOk m = true) : parseItem (dumpScalar m) = some m :=
  parseItem_dumpScalar_lt m (fun c hc => charOk_lt c ((valOk_parts m h).1 c hc))

theorem title_value_facts (t : PyStr) (h : TitleOk t = true) :
    has3Dash (dumpScalar t) = false ∧ (∀ c ∈ dumpScalar t, ¬ c = '\n') := by
  rw [dumpScalar_of_plain t (TitleOk_plainStyleOk t h)]
  obtain ⟨_, _, h4, _, h6, _⟩ := TitleOk_parts t h
  refine ⟨h6, fun c hc => ?_⟩
  exact ne_of_class (f := fun c => c.isAlphanum || c == ' ' || c == '_' || c == '-') c '\n'
    (h4 c hc) (by decide)

theorem motif_value_facts (m : PyStr) (h : MotifOk m = true) :
    has3Dash (dumpScalar m) = false ∧ (∀ c ∈ dumpScalar m, ¬ c = '\n') := by
  simp only [MotifOk, Bool.or_eq_true, beq_iff_eq] at h
  rcases h with (h | h) | h
  · exact title_value_facts m h
  · subst h
    exact ⟨by decide, by decide⟩
  · subst h
    exact ⟨by decide, by decide⟩

theorem now_value_facts (n : PyStr) (h : NowOk n = true) :
    has3Dash (dumpScalar n) = false ∧ (∀ c ∈ dumpScalar n, ¬ c = '\n') := by
  rw [dumpScalar_of_now n h]
  obtain ⟨_, h2, h3, h4⟩ := NowOk_parts n h
  have hmem : ∀ c ∈ sqQuote n, c ∈ n ∨ c = '\'' := by
    intro c hc
    rcases List.mem_cons.mp hc with hc | hc
    · exact Or.inr hc
    · rcases List.mem_append.mp hc with hc | hc
      · exact mem_sqEscape n c hc
      · exact Or.inr (List.mem_singleton.mp hc)
  constructor
  · show has3Dash ('\'' :: (sqEscape n ++ ['\''])) = false
    have hesc : sqEscape n = n := by
      apply sqEscape_id
      intro c hc
      exact ne_of_class (f := fun c => c.isDigit || c == '-' || c == ':' || c == ' ') c '\''
        (h2 c hc) (by decide)
    rw [hesc]
    refine has3Dash_cons_ne '\'' _ (by decide) ?_
    refine has3Dash_glue n ['\''] h4 (by decide) ?_
    rw [h3]
    simp
  · intro c hc
    rcases hmem c hc with hc' | hc'
    · exact ne_of_class (f := fun c => c.isDigit || c == '-' || c == ':' || c == ' ') c '\n'
        (h2 c hc') (by decide)
    · subst hc'
      decide

theorem conv_value_facts (q : ℚ) :
    has3Dash (dumpScalar (strL "η ≈ " ++ fmt2dp q)) = false ∧
      (∀ c ∈ dumpScalar (strL "η ≈ " ++ fmt2dp q), ¬ c = '\n') := by
  rw [dumpScalar_conv]
  have hval : ∀ x ∈ strL "η ≈ " ++ fmt2dp q, ¬ x = '-' ∧ ¬ x = '\n' := by
    intro x hx
    rcases List.mem_append.mp hx with hx | hx
    · fin_cases hx <;> exact ⟨by decide, by decide⟩
    · rcases fmt2dp_chars q x hx with h | h
      · constructor
        · exact ne_of_class (f := Char.isDigit) x '-' h (by decide)
        · exact ne_of_class (f := Char.isDigit) x '\n' h (by decide)
      · subst h
        exact ⟨by decide, by decide⟩
  have hmem : ∀ x ∈ dqQuote (strL "η ≈ " ++ fmt2dp q), ¬ x = '-' ∧ ¬ x = '\n' := by
    intro x hx
    rcases List.mem_cons.mp hx with hx | hx
    · subst hx
      exact ⟨by decide, by decide⟩
    · rcases List.mem_append.mp hx with hx | hx
      · rcases mem_dqEsc _ x hx with h | h | h | h | h
        · exact hval x h
        · subst h
          exact ⟨by decide, by decide⟩
        · subst h
          exact ⟨by decide, by decide⟩
        · subst h
          exact ⟨by decide, by decide⟩
        · have : ∀ y ∈ hexDigitsU, ¬ y = '-' ∧ ¬ y = '\n' := by decide
          exact this x h
      · rw [List.mem_singleton] at hx
        subst hx
        exact ⟨by decide, by decide⟩
  constructor
  · exact has3Dash_of_no_dash _ (fun c hc => (hmem c hc).1)
  · exact fun c hc => (hmem c hc).2

theorem pie_value_facts (bs : List Nat) :
    has3Dash (dumpScalar (b64encode bs)) = false ∧
      (∀ c ∈ dumpScalar (b64encode bs), ¬ c = '\n') := by
  have hmem : ∀ c ∈ dumpScalar (b64encode bs),
      c ∈ b64encode bs ∨ c = '\'' ∨ c = '"' ∨ c = '\\' ∨ c = 'u' ∨ c ∈ hexDigitsU := by
    intro c hc
    unfold dumpScalar at hc
    by_cases hp : plainStyleOk (b64encode bs) = true
    · rw [if_pos hp] at hc
      exact Or.inl hc
    · rw [if_neg hp, if_pos (b64encode_printable bs)] at hc
      rcases List.mem_cons.mp hc with hc | hc
      · exact Or.inr (Or.inl hc)
      · rcases List.mem_append.mp hc with hc | hc
        · rcases mem_sqEscape _ c hc with h | h
          · exact Or.inl h
          · exact Or.inr (Or.inl h)
        · exact Or.inr (Or.inl (List.mem_singleton.mp hc))
  have hfacts : ∀ c ∈ dumpScalar (b64encode bs), ¬ c = '-' ∧ ¬ c = '\n' := by
    intro c hc
    rcases hmem c hc with h | h | h | h | h | h
    · obtain ⟨_, hd, hn⟩ := b64encode_charFacts bs c h
      exact ⟨hd, hn⟩
    · subst h; exact ⟨by decide, by decide⟩
    · subst h; exact ⟨by decide, by decide⟩
    · subst h; exact ⟨by decide, by decide⟩
    · subst h; exact ⟨by decide, by decide⟩
    · have : ∀ y ∈ hexDigitsU, ¬ y = '-' ∧ ¬ y = '\n' := by decide
      exact this c h
  constructor
  · exact has3Dash_of_no_dash _ (fun c hc => (hfacts c hc).1)
  · exact fun c hc => (hfacts c hc).2

theorem natToChars_value_facts (n : Nat) :
    has3Dash (natToChars n) = false ∧ (∀ c ∈ natToChars n, ¬ c = '\n') := by
  constructor
  · refine has3Dash_of_no_dash _ (fun c hc => ?_)
    exact ne_of_class (f := Char.isDigit) c '-' (natToChars_digits n c hc) (by decide)
  · intro c hc
    exact ne_of_class (f := Char.isDigit) c '\n' (natToChars_digits n c hc) (by decide)

theorem dash_prefix_false (k : PyStr) (c : Char) (hc : ¬ c = '-') (s : PyStr)
    (hk : k.head? = some c) : (strL "- ").isPrefixOf (k ++ s) = false := by
  cases k with
  | nil => simp at hk
  | cons a t =>
    simp only [List.head?_cons, Option.some.injEq] at hk
    have ha : ¬ a = '-' := fun he => hc (by rw [← hk, he])
    show (('-' == a) && (strL " ").isPrefixOf (t ++ s)) = false
    rw [show ('-' == a) = false from by
      rw [beq_eq_false_iff_ne]
      exact fun he => ha he.symm]
    exact Bool.false_and _

theorem parseLines_kv (k v : PyStr) (y : YVal) (rest : List PyStr) (acc : List (PyStr × YVal))
    (hk : containsSub (strL ": ") k = false)
    (hpre : (strL "- ").isPrefixOf (k ++ (strL ": " ++ v)) = false)
    (hv : parseVal v = some y) :
    parseLines ((k ++ (strL ": " ++ v)) :: rest) acc = parseLines rest (acc ++ [(k, y)]) := by
  have hfind := findSub_colon_space k v hk
  have hdrop : (k ++ (strL ": " ++ v)).drop (k.length + 2) = v := by
    rw [List.drop_append]
    rfl
  have htake : (k ++ (strL ": " ++ v)).take k.length = k := List.take_left _ _
  simp only [parseLines, hpre, Bool.false_eq_true, if_false, hfind, hdrop, htake, hv]

theorem parseLines_item (m it : PyStr) (rest : List PyStr) (pre : List (PyStr × YVal))
    (k : PyStr) (its : List PyStr) (hm : parseItem m = some it) :
    parseLines ((strL "- " ++ m) :: rest) (pre ++ [(k, .list its)]) =
      parseLines rest (pre ++ [(k, .list (its ++ [it]))]) := by
  have hpre : (strL "- ").isPrefixOf (strL "- " ++ m) = true :=
    List.isPrefixOf_iff_prefix.mpr (List.prefix_append _ _)
  have hlast : (pre ++ [(k, YVal.list its)]).getLast? = some (k, .list its) := by simp
  have hdropl : (pre ++ [(k, YVal.list its)]).dropLast = pre := by simp
  have hdrop2 : (strL "- " ++ m).drop 2 = m := rfl
  simp only [parseLines, hpre, if_true, hlast, hdropl, hdrop2, hm]

theorem parseLines_items : ∀ (ms : List PyStr), (∀ m ∈ ms, ValOk m = true) →
    ∀ (rest : List PyStr) (pre : List (PyStr × YVal)) (k : PyStr) (its : List PyStr),
    parseLines (ms.map (fun m => strL "- " ++ dumpScalar m) ++ rest) (pre ++ [(k, .list its)]) =
      parseLines rest (pre ++ [(k, .list (its ++ ms))]) := by
  intro ms
  induction ms with
  | nil =>
    intro _ rest pre k its
    simp
  | cons m ms' ih =>
    intro h rest pre k its
    simp only [List.map_cons, List.cons_append]
    rw [parseLines_item (dumpScalar m) m _ pre k its
      (parseItem_motif m (h m (List.mem_cons_self _ _)))]
    rw [ih (fun x hx => h x (List.mem_cons_of_mem _ hx)) rest pre k (its ++ [m])]
    rw [List.append_assoc]
    rfl

theorem parseLines_kmHeader (rest : List PyStr) (acc : List (PyStr × YVal)) :
    parseLines (strL "key_motifs:" :: rest) acc =
      parseLines rest (acc ++ [(strL "key_motifs", .list [])]) := rfl

theorem parseLines_metadata (title now : PyStr) (conv : ℚ) (bs : List Nat) (km : List PyStr)
    (n : Nat) (hT : ValOk title = true) (hN : ValOk now = true)
    (hkm : ∀ m ∈ km, ValOk m = true) :
    parseLines (assocLines
        [(strL "title", .str title), (strL "date", .str now),
         (strL "version", .str (strL "3.1")),
         (strL "convergence", .str (strL "η ≈ " ++ fmt2dp conv)),
         (strL "pie_vector", .str (b64encode bs)), (strL "key_motifs", .list km),
         (strL "srt_mode", .bool true), (strL "input_length", .nat n)]) [] =
      some
        [(strL "title", .str title), (strL "date", .str now),
         (strL "version", .str (strL "3.1")),
         (strL "convergence", .str (strL "η ≈ " ++ fmt2dp conv)),
         (strL "pie_vector", .str (b64encode bs)), (strL "key_motifs", .list km),
         (strL "srt_mode", .bool true),
         (strL "input_length", .nat (digitsToNat (natToChars n)))] := by
  have hvTitle : parseVal (dumpScalar title) = some (.str title) :=
    parseVal_dumpScalar_lt title (fun c hc => charOk_lt c ((valOk_parts title hT).1 c hc))
  have hvDate : parseVal (dumpScalar now) = some (.str now) :=
    parseVal_dumpScalar_lt now (fun c hc => charOk_lt c ((valOk_parts now hN).1 c hc))
  have hvConv : parseVal (dumpScalar (strL "η ≈ " ++ fmt2dp conv)) =
      some (.str (strL "η ≈ " ++ fmt2dp conv)) := by
    rw [dumpScalar_conv]
    exact parseVal_dqQuote _ (convStr_lt conv)
  have hvPie : parseVal (dumpScalar (b64encode bs)) = some (.str (b64encode bs)) :=
    parseVal_dumpScalar _ (b64encode_printable bs)
  cases km with
  | nil =>
    simp only [assocLines, List.cons_append, List.nil_append, List.append_assoc, reduceIte]
    rw [parseLines_kv (strL "title") _ _ _ _ (by decide)
      (dash_prefix_false _ 't' (by decide) _ rfl) hvTitle]
    rw [parseLines_kv (strL "date") _ _ _ _ (by decide)
      (dash_prefix_false _ 'd' (by decide) _ rfl) hvDate]
    rw [parseLines_kv (strL "version") (dumpScalar (strL "3.1")) (.str (strL "3.1")) _ _
      (by decide) (dash_prefix_false _ 'v' (by decide) _ rfl) (by decide)]
    rw [parseLines_kv (strL "convergence") _ _ _ _ (by decide)
      (dash_prefix_false _ 'c' (by decide) _ rfl) hvConv]
    rw [parseLines_kv (strL "pie_vector") _ _ _ _ (by decide)
      (dash_prefix_false _ 'p' (by decide) _ rfl) hvPie]
    rw [show (strL ": []" : PyStr) = strL ": " ++ strL "[]" from rfl]
    rw [parseLines_kv (strL "key_motifs") (strL "[]") (.list []) _ _ (by decide)
      (dash_prefix_false _ 'k' (by decide) _ rfl) (by decide)]
    rw [parseLines_kv (strL "srt_mode") (strL "true") (.bool true) _ _ (by decide)
      (dash_prefix_false _ 's' (by decide) _ rfl) (by decide)]
    rw [parseLines_kv (strL "input_length") _ _ _ _ (by decide)
      (dash_prefix_false _ 'i' (by decide) _ rfl) (parseVal_natToChars n)]
    simp [parseLines]
  | cons m ms =>
    simp only [assocLines, List.cons_append, List.nil_append, List.append_assoc, reduceIte]
    rw [parseLines_kv (strL "title") _ _ _ _ (by decide)
      (dash_prefix_false _ 't' (by decide) _ rfl) hvTitle]
    rw [parseLines_kv (strL "date") _ _ _ _ (by decide)
      (dash_prefix_false _ 'd' (by decide) _ rfl) hvDate]
    rw [parseLines_kv (strL "version") (dumpScalar (strL "3.1")) (.str (strL "3.1")) _ _
      (by decide) (dash_prefix_false _ 'v' (by decide) _ rfl) (by decide)]
    rw [parseLines_kv (strL "convergence") _ _ _ _ (by decide)
      (dash_prefix_false _ 'c' (by decide) _ rfl) hvConv]
    rw [parseLines_kv (strL "pie_vector") _ _ _ _ (by decide)
      (dash_prefix_false _ 'p' (by decide) _ rfl) hvPie]
    rw [show (strL "key_motifs" ++ ([':'] : PyStr)) = strL "key_motifs:" from rfl]
    rw [parseLines_kmHeader]
    rw [show ((([] : List (PyStr × YVal)) ++ [(strL "title", YVal.str title)] ++
        [(strL "date", YVal.str now)] ++ [(strL "version", YVal.str (strL "3.1"))] ++
        [(strL "convergence", YVal.str (strL "η ≈ " ++ fmt2dp conv))] ++
        [(strL "pie_vector", YVal.str (b64encode bs))]) ++
        [(strL "key_motifs", YVal.list [])]) =
      (([] ++ [(strL "title", YVal.str title)] ++ [(strL "date", YVal.str now)] ++
        [(strL "version", YVal.str (strL "3.1"))] ++
        [(strL "convergence", YVal.str (strL "η ≈ " ++ fmt2dp conv))] ++
        [(strL "pie_vector", YVal.str (b64encode bs))]) ++
        [(strL "key_motifs", YVal.list [])]) from rfl]
    rw [parseLines_items (m :: ms) hkm _ _ _ _]
    rw [parseLines_kv (strL "srt_mode") (strL "true") (.bool true) _ _ (by decide)
      (dash_prefix_false _ 's' (by decide) _ rfl) (by decide)]
    rw [parseLines_kv (strL "input_length") _ _ _ _ (by decide)
      (dash_prefix_false _ 'i' (by decide) _ rfl) (parseVal_natToChars n)]
    simp [parseLines]

theorem pre_value_facts (p v : PyStr) (hp3 : has3Dash p = false) (hpL : p.getLast? ≠ some '-')
    (hpnl : ∀ c ∈ p, ¬ c = '\n') (hv3 : has3Dash v = false) (hvnl : ∀ c ∈ v, ¬ c = '\n') :
    has3Dash (p ++ v) = false ∧ (∀ c ∈ p ++ v, ¬ c = '\n') := by
  refine ⟨has3Dash_glue p v hp3 hv3 hpL, ?_⟩
  intro c hc
  rcases List.mem_append.mp hc with h | h
  · exact hpnl c h
  · exact hvnl c h

theorem kv_line_facts (a v : PyStr) (hha : has3Dash a = false) (haL : a.getLast? ≠ some '-')
    (hanl : ∀ c ∈ a, ¬ c = '\n') (hv3 : has3Dash v = false) (hvnl : ∀ c ∈ v, ¬ c = '\n') :
    has3Dash (a ++ v) = false ∧ (('\n' : Char) ∉ a ++ v) := by
  constructor
  · exact has3Dash_glue a v hha hv3 haL
  · intro hmem
    rcases List.mem_append.mp hmem with h | h
    · exact hanl _ h rfl
    · exact hvnl _ h rfl

theorem concrete_line_facts (l : PyStr) (h3 : has3Dash l = false)
    (hnl : (('\n' : Char) ∈ l) = False) : has3Dash l = false ∧ (('\n' : Char) ∉ l) :=
  ⟨h3, fun hm => hnl ▸ hm⟩

theorem metadata_lines_facts (title now : PyStr) (conv : ℚ) (bs : List Nat) (km : List PyStr)
    (n : Nat) (hT : ValOk title = true) (hN : ValOk now = true)
    (hkm : ∀ m ∈ km, ValOk m = true) :
    ∀ l ∈ assocLines
        [(strL "title", .str title), (strL "date", .str now),
         (strL "version", .str (strL "3.1")),
         (strL "convergence", .str (strL "η ≈ " ++ fmt2dp conv)),
         (strL "pie_vector", .str (b64encode bs)), (strL "key_motifs", .list km),
         (strL "srt_mode", .bool true), (strL "input_length", .nat n)],
      has3Dash l = false ∧ (('\n' : Char) ∉ l) := by
  intro l hl
  cases km with
  | nil =>
    simp only [assocLines, List.cons_append, List.nil_append, List.append_assoc, reduceIte,
      List.mem_cons, List.not_mem_nil, or_false] at hl
    rcases hl with hl | hl | hl | hl | hl | hl | hl | hl <;> subst hl
    · exact kv_line_facts _ _ (by decide) (by decide) (by decide)
        (pre_value_facts (strL ": ") _ (by decide) (by decide) (by decide)
          (dump_value_facts title hT).1 (dump_value_facts title hT).2).1
        (pre_value_facts (strL ": ") _ (by decide) (by decide) (by decide)
          (dump_value_facts title hT).1 (dump_value_facts title hT).2).2
    · exact kv_line_facts _ _ (by decide) (by decide) (by decide)
        (pre_value_facts (strL ": ") _ (by decide) (by decide) (by decide)
          (dump_value_facts now hN).1 (dump_value_facts now hN).2).1
        (pre_value_facts (strL ": ") _ (by decide) (by decide) (by decide)
          (dump_value_facts now hN).1 (dump_value_facts now hN).2).2
    · exact concrete_line_facts _ (by decide) (by decide)
    · exact kv_line_facts _ _ (by decide) (by decide) (by decide)
        (pre_value_facts (strL ": ") _ (by decide) (by decide) (by decide)
          (conv_value_facts conv).1 (conv_value_facts conv).2).1
        (pre_value_facts (strL ": ") _ (by decide) (by decide) (by decide)
          (conv_value_facts conv).1 (conv_value_facts conv).2).2
    · exact kv_line_facts _ _ (by decide) (by decide) (by decide)
        (pre_value_facts (strL ": ") _ (by decide) (by decide) (by decide)
          (pie_value_facts bs).1 (pie_value_facts bs).2).1
        (pre_value_facts (strL ": ") _ (by decide) (by decide) (by decide)
          (pie_value_facts bs).1 (pie_value_facts bs).2).2
    · exact concrete_line_facts _ (by decide) (by decide)
    · exact concrete_line_facts _ (by decide) (by decide)
    · exact kv_line_facts _ _ (by decide) (by decide) (by decide)
        (pre_value_facts (strL ": ") _ (by decide) (by decide) (by decide)
          (natToChars_value_facts n).1 (natToChars_value_facts n).2).1
        (pre_value_facts (strL ": ") _ (by decide) (by decide) (by decide)
          (natToChars_value_facts n).1 (natToChars_value_facts n).2).2
  | cons m ms =>
    simp only [assocLines, List.cons_append, List.nil_append, List.append_assoc, reduceIte,
      List.mem_cons, List.not_mem_nil, or_false, List.mem_append, List.mem_map] at hl
    rcases hl with hl | hl | hl | hl | hl | hl | hl | hl
    · subst hl
      exact kv_line_facts _ _ (by decide) (by decide) (by decide)
        (pre_value_facts (strL ": ") _ (by decide) (by decide) (by decide)
          (dump_value_facts title hT).1 (dump_value_facts title hT).2).1
        (pre_value_facts (strL ": ") _ (by decide) (by decide) (by decide)
          (dump_value_facts title hT).1 (dump_value_facts title hT).2).2
    · subst hl
      exact kv_line_facts _ _ (by decide) (by decide) (by decide)
        (pre_value_facts (strL ": ") _ (by decide) (by decide) (by decide)
          (dump_value_facts now hN).1 (dump_value_facts now hN).2).1
        (pre_value_facts (strL ": ") _ (by decide) (by decide) (by decide)
          (dump_value_facts now hN).1 (dump_value_facts now hN).2).2
    · subst hl
      exact concrete_line_facts _ (by decide) (by decide)
    · subst hl
      exact kv_line_facts _ _ (by decide) (by decide) (by decide)
        (pre_value_facts (strL ": ") _ (by decide) (by decide) (by decide)
          (conv_value_facts conv).1 (conv_value_facts conv).2).1
        (pre_value_facts (strL ": ") _ (by decide) (by decide) (by decide)
          (conv_value_facts conv).1 (conv_value_facts conv).2).2
    · subst hl
      exact kv_line_facts _ _ (by decide) (by decide) (by decide)
        (pre_value_facts (strL ": ") _ (by decide) (by decide) (by decide)
          (pie_value_facts bs).1 (pie_value_facts bs).2).1
        (pre_value_facts (strL ": ") _ (by decide) (by decide) (by decide)
          (pie_value_facts bs).1 (pie_value_facts bs).2).2
    · subst hl
      exact concrete_line_facts _ (by decide) (by decide)
    · obtain ⟨x, hx, hlx⟩ := hl
      subst hlx
      have hmx : ValOk x = true := hkm x (List.mem_cons.mpr hx)
      exact kv_line_facts _ _ (by decide) (by decide) (by decide)
        (dump_value_facts x hmx).1 (dump_value_facts x hmx).2
    · rcases hl with hl | hl
      · subst hl
        exact concrete_line_facts _ (by decide) (by decide)
      · subst hl
        exact kv_line_facts _ _ (by decide) (by decide) (by decide)
          (pre_value_facts (strL ": ") _ (by decide) (by decide) (by decide)
            (natToChars_value_facts n).1 (natToChars_value_facts n).2).1
          (pre_value_facts (strL ": ") _ (by decide) (by decide) (by decide)
            (natToChars_value_facts n).1 (natToChars_value_facts n).2).2

theorem dget_mdP_title (e1 e2 e3 e4 e5 e6 e7 : YVal) (tv : YVal) :
    dget [(strL "title", tv), (strL "date", e1), (strL "version", e2), (strL "convergence", e3),
      (strL "pie_vector", e4), (strL "key_motifs", e5), (strL "srt_mode", e6),
      (strL "input_length", e7)] (strL "title") = some tv := rfl

theorem dget_mdP_pie (e1 e2 e3 e4 e5 e6 e7 : YVal) (pv : YVal) :
    dget [(strL "title", e1), (strL "date", e2), (strL "version", e3), (strL "convergence", e4),
      (strL "pie_vector", pv), (strL "key_motifs", e5), (strL "srt_mode", e6),
      (strL "input_length", e7)] (strL "pie_vector") = some pv := rfl

theorem dget_mdP_km (e1 e2 e3 e4 e5 e6 e7 : YVal) (kv : YVal) :
    dget [(strL "title", e1), (strL "date", e2), (strL "version", e3), (strL "convergence", e4),
      (strL "pie_vector", e5), (strL "key_motifs", kv), (strL "srt_mode", e6),
      (strL "input_length", e7)] (strL "key_motifs") = some kv := rfl

theorem dget_mdP_conv (e1 e2 e3 e4 e5 e6 e7 : YVal) (cv : YVal) :
    dget [(strL "title", e1), (strL "date", e2), (strL "version", e3), (strL "convergence", cv),
      (strL "pie_vector", e4), (strL "key_motifs", e5), (strL "srt_mode", e6),
      (strL "input_length", e7)] (strL "convergence") = some cv := rfl

theorem isWS_digit_false (c : Char) (h : c.isDigit = true) : isWS c = false := by
  cases hw : isWS c
  · rfl
  · exfalso
    simp only [isWS, Bool.or_eq_true, beq_iff_eq] at hw
    rcases hw with ((((hw | hw) | hw) | hw) | hw) | hw <;>
      · subst hw
        exact absurd h (by decide)

theorem parse_srec_generated (title now : PyStr) (conv : ℚ) (bs : List Nat) (km : List PyStr)
    (n : Nat) (B : PyStr) (hT : ValOk title = true) (hN : ValOk now = true)
    (hkm : ∀ m ∈ km, ValOk m = true) :
    parse_srec (strL "---\n" ++ yamlDumpAssoc
        [(strL "title", .str title), (strL "date", .str now),
         (strL "version", .str (strL "3.1")),
         (strL "convergence", .str (strL "η ≈ " ++ fmt2dp conv)),
         (strL "pie_vector", .str (b64encode bs)), (strL "key_motifs", .list km),
         (strL "srt_mode", .bool true), (strL "input_length", .nat n)] ++
        (strL "---\n\n" ++ B)) =
      .ok ⟨[(strL "title", .str title), (strL "date", .str now),
            (strL "version", .str (strL "3.1")),
            (strL "convergence", .str (strL "η ≈ " ++ fmt2dp conv)),
            (strL "pie_vector", .str (b64encode bs)), (strL "key_motifs", .list km),
            (strL "srt_mode", .bool true),
            (strL "input_length", .nat (digitsToNat (natToChars n)))],
           b64encode bs, km, sealScan (pyStrip (strL "\n\n" ++ B)),
           strL "η ≈ " ++ fmt2dp conv, pyStrip (strL "\n\n" ++ B)⟩ := by
  have hlines := metadata_lines_facts title now conv bs km n hT hN hkm
  have hLne : assocLines
      [(strL "title", YVal.str title), (strL "date", YVal.str now),
       (strL "version", YVal.str (strL "3.1")),
       (strL "convergence", YVal.str (strL "η ≈ " ++ fmt2dp conv)),
       (strL "pie_vector", YVal.str (b64encode bs)), (strL "key_motifs", YVal.list km),
       (strL "srt_mode", YVal.bool true), (strL "input_length", YVal.nat n)] ≠ [] := by
    simp [assocLines]
  set L := assocLines
      [(strL "title", YVal.str title), (strL "date", YVal.str now),
       (strL "version", YVal.str (strL "3.1")),
       (strL "convergence", YVal.str (strL "η ≈ " ++ fmt2dp conv)),
       (strL "pie_vector", YVal.str (b64encode bs)), (strL "key_motifs", YVal.list km),
       (strL "srt_mode", YVal.bool true), (strL "input_length", YVal.nat n)] with hLdef
  have hheadline : L.headD [] = (strL "title" ++ strL ": ") ++ dumpScalar title := by
    rw [hLdef]
    rfl
  have hfl : L.headD [] ≠ [] := by
    rw [hheadline]
    simp [strL]
  have hlastline : L.getLast? = some ((strL "input_length" ++ strL ": ") ++ natToChars n) := by
    rw [hLdef]
    cases km with
    | nil => rfl
    | cons m ms =>
      simp only [assocLines, List.cons_append, List.nil_append, List.append_nil, List.map_cons]
      simp only [← List.cons_append]
      rw [List.getLast?_append_of_ne_nil _ (by simp)]
      rfl
  have hlastdigit : ∃ d, ((strL "input_length" ++ strL ": ") ++ natToChars n).getLast? = some d ∧
      d.isDigit = true := by
    have hne := natToChars_ne_nil n
    cases hnc : natToChars n with
    | nil => exact absurd hnc hne
    | cons a t =>
      rw [List.getLast?_append_of_ne_nil _ (by simp)]
      have hd : ∀ c ∈ natToChars n, c.isDigit = true := natToChars_digits n
      rw [hnc] at hd
      cases hgl : (a :: t : PyStr).getLast? with
      | none => simp at hgl
      | some d =>
        exact ⟨d, rfl, hd d (List.mem_of_mem_getLast? hgl)⟩
  have hno3 : has3Dash (interNL L) = false :=
    has3Dash_interNL L (fun l hl => (hlines l hl).1)
  have hNLfree : ∀ l ∈ L, ('\n' : Char) ∉ l := fun l hl => (hlines l hl).2
  have hine : interNL L ≠ [] := by
    intro h
    have hh := interNL_head L hfl
    rw [h] at hh
    rw [hheadline] at hh
    simp [strL] at hh
  have hjoin : yamlDumpAssoc
      [(strL "title", YVal.str title), (strL "date", YVal.str now),
       (strL "version", YVal.str (strL "3.1")),
       (strL "convergence", YVal.str (strL "η ≈ " ++ fmt2dp conv)),
       (strL "pie_vector", YVal.str (b64encode bs)), (strL "key_motifs", YVal.list km),
       (strL "srt_mode", YVal.bool true), (strL "input_length", YVal.nat n)] =
      interNL L ++ ['\n'] := by
    rw [show yamlDumpAssoc
      [(strL "title", YVal.str title), (strL "date", YVal.str now),
       (strL "version", YVal.str (strL "3.1")),
       (strL "convergence", YVal.str (strL "η ≈ " ++ fmt2dp conv)),
       (strL "pie_vector", YVal.str (b64encode bs)), (strL "key_motifs", YVal.list km),
       (strL "srt_mode", YVal.bool true), (strL "input_length", YVal.nat n)] = joinNLn L from rfl]
    exact joinNLn_eq_interNL L hLne
  have hstrip : pyStrip ('\n' :: (interNL L ++ ['\n'])) = interNL L := by
    apply pyStrip_nl_wrap (interNL L) hine
    · intro c hc
      rw [interNL_head L hfl, hheadline] at hc
      rw [show (((strL "title" ++ strL ": ") ++ dumpScalar title) : PyStr).head? = some 't'
        from rfl] at hc
      cases hc
      rfl
    · intro c hc
      obtain ⟨d, hd1, hd2⟩ := hlastdigit
      rw [interNL_getLast L _ hlastline (by simp [strL]), hd1] at hc
      cases hc
      exact isWS_digit_false _ hd2
  have hsplitchar : splitChar '\n' (interNL L) = L := splitChar_interNL L hLne hNLfree
  have h3outer : has3Dash (('\n' :: (interNL L ++ ['\n'])) ++ strL "--") = false := by
    have hre : (('\n' :: (interNL L ++ ['\n'])) ++ strL "--") =
        '\n' :: (interNL L ++ ('\n' :: strL "--")) := by
      simp [List.append_assoc]
    rw [hre]
    refine has3Dash_cons_ne '\n' _ (by decide) ?_
    exact has3Dash_glue_nl (interNL L) (strL "--") hno3 (by decide)
  have hps := pySplit_doc (interNL L ++ ['\n']) B (by exact h3outer)
  have hcontent : (strL "---\n" ++ yamlDumpAssoc
      [(strL "title", YVal.str title), (strL "date", YVal.str now),
       (strL "version", YVal.str (strL "3.1")),
       (strL "convergence", YVal.str (strL "η ≈ " ++ fmt2dp conv)),
       (strL "pie_vector", YVal.str (b64encode bs)), (strL "key_motifs", YVal.list km),
       (strL "srt_mode", YVal.bool true), (strL "input_length", YVal.nat n)] ++
      (strL "---\n\n" ++ B)) =
      strL "---\n" ++ (interNL L ++ ['\n']) ++ (strL "---\n\n" ++ B) := by
    rw [hjoin]
  rw [hcontent]
  have hpre : (strL "---").isPrefixOf
      (strL "---\n" ++ (interNL L ++ ['\n']) ++ (strL "---\n\n" ++ B)) = true := by
    apply List.isPrefixOf_iff_prefix.mpr
    rw [show (strL "---\n" ++ (interNL L ++ ['\n']) ++ (strL "---\n\n" ++ B)) =
      strL "---" ++ ('\n' :: ((interNL L ++ ['\n']) ++ (strL "---\n\n" ++ B))) from by
        simp [strL, List.append_assoc]]
    exact List.prefix_append _ _
  unfold parse_srec
  rw [hpre]
  simp only [Bool.not_true, Bool.false_eq_true, if_false]
  simp only [hps, List.length_cons, List.length_nil, Nat.reduceAdd, List.getD_cons_succ,
    List.getD_cons_zero]
  rw [if_neg (by omega)]
  simp only [hstrip]
  simp only [show yamlLoad (interNL L) = parseLines (splitChar '\n' (interNL L)) [] from rfl,
    hsplitchar]
  rw [hLdef]
  rw [parseLines_metadata title now conv bs km n hT hN hkm]
  rfl

/-- Claim C1 (corrected): round-trip of the document codec.  For every
generation whose title, timestamp and resolved motifs contain no `---`
substring and draw their characters from the modelled emitter range
(`ValOk`: printable ASCII, or U+0080..U+FFFF excluding the four characters
PyYAML writes with short escapes), decoding the generated document succeeds
and recovers exactly the title and the motif list that were used to build
it. -/
theorem srec_roundtrip (now title input_text : PyStr) (key_motifs : Option (List PyStr))
    (convergence : Option ℚ) (pie_seed : Option (List Nat))
    (hT : ValOk title = true) (hN : ValOk now = true)
    (hkm : ∀ m ∈ resolveMotifs input_text key_motifs, ValOk m = true) :
    ∃ loaded : Loaded,
      load_srec (some (generate_srec now title input_text key_motifs convergence pie_seed).1) =
        some loaded ∧
      dget loaded.metadata (strL "title") = some (.str title) ∧
      loaded.key_motifs =
        (generate_srec now title input_text key_motifs convergence pie_seed).2.2 := by
  set cv : ℚ := (match convergence with
      | none => compute_convergence (splitWs input_text).length
          (resolveMotifs input_text key_motifs).length (95/100)
      | some c => c) with hcv
  have hdoc : (generate_srec now title input_text key_motifs convergence pie_seed).1 =
      strL "---\n" ++ yamlDumpAssoc
        [(strL "title", .str title), (strL "date", .str now),
         (strL "version", .str (strL "3.1")),
         (strL "convergence", .str (strL "η ≈ " ++ fmt2dp cv)),
         (strL "pie_vector", .str (b64encode (resolveSeed title input_text
           (resolveMotifs input_text key_motifs) pie_seed))),
         (strL "key_motifs", .list (resolveMotifs input_text key_motifs)),
         (strL "srt_mode", .bool true),
         (strL "input_length",
          .nat (if !input_text.isEmpty then (splitWs input_text).length else 0))] ++
        (strL "---\n\n" ++
          (gen_body (gen_sections input_text (resolveMotifs input_text key_motifs)) ++
            (strL "\n\n## Iterative Progression Trace\n" ++ gen_trace cv))) := by
    simp [generate_srec, gen_metadata, List.append_assoc, ← hcv]
  have hkm2 : (generate_srec now title input_text key_motifs convergence pie_seed).2.2 =
      resolveMotifs input_text key_motifs := by
    simp [generate_srec]
  rw [hdoc, hkm2]
  simp only [load_srec]
  rw [parse_srec_generated title now cv
    (resolveSeed title input_text (resolveMotifs input_text key_motifs) pie_seed)
    (resolveMotifs input_text key_motifs)
    (if !input_text.isEmpty then (splitWs input_text).length else 0)
    _ hT hN hkm]
  simp only [Except.toOption]
  refine ⟨_, rfl, ?_, rfl⟩
  exact dget_mdP_title _ _ _ _ _ _ _ _

/-- Witness for claim C1 at a concrete generation. -/
theorem srec_roundtrip_witness :
    ValOk (strL "Session Notes") = true ∧ ValOk (strL "2025-06-01 10:30 ") = true ∧
    (∀ m ∈ resolveMotifs (strL "alpha beta alpha beta alpha gamma") none, ValOk m = true) ∧
    (∃ loaded : Loaded,
      load_srec (some (generate_srec (strL "2025-06-01 10:30 ") (strL "Session Notes")
          (strL "alpha beta alpha beta alpha gamma") none none none).1) = some loaded ∧
      dget loaded.metadata (strL "title") = some (.str (strL "Session Notes")) ∧
      loaded.key_motifs = (generate_srec (strL "2025-06-01 10:30 ") (strL "Session Notes")
          (strL "alpha beta alpha beta alpha gamma") none none none).2.2) :=
  ⟨by decide, by decide, by decide,
    srec_roundtrip (strL "2025-06-01 10:30 ") (strL "Session Notes")
      (strL "alpha beta alpha beta alpha gamma") none none none
      (by decide) (by decide) (by decide)⟩

/-- Claim C1 counterexample: with the title `a---b` (which collides with the
`---` document delimiter) the generated document still loads, but the decoded
title is the truncated `a` and the decoded motif list is empty — not the
title and motif list used to build the document. -/
theorem srec_roundtrip_cex :
    (load_srec (some (generate_srec (strL "2025-06-01 10:30 ") (strL "a---b")
        (strL "alpha beta") none none none).1)).map
      (fun l => (dget l.metadata (strL "title"), l.key_motifs)) =
      some (some (.str (strL "a")), []) := by
  with_unfolding_all decide

theorem b64Val_b64Char (v : Nat) (h : v < 64) : b64Val (b64Char v) = v := by
  have hfin : ∀ x : Fin 64, b64Val (b64Char x.val) = x.val := by decide
  exact hfin ⟨v, h⟩

theorem b64Char_ne_pad (v : Nat) (h : v < 64) : ¬ b64Char v = '=' := by
  have hfin : ∀ x : Fin 64, ¬ b64Char x.val = '=' := by decide
  exact hfin ⟨v, h⟩

/-- Decoding inverts encoding on genuine byte lists. -/
theorem b64decode_b64encode : ∀ bs : List Nat, (∀ b ∈ bs, b < 256) →
    b64decode (b64encode bs) = bs := by
  intro bs
  induction bs using b64encode.induct with
  | case1 =>
    intro _
    rfl
  | case2 a =>
    intro h
    have ha : a < 256 := h a (List.mem_cons_self _ _)
    show b64decode [b64Char (a / 4), b64Char (a % 4 * 16), '=', '='] = [a]
    have hd : b64decode [b64Char (a / 4), b64Char (a % 4 * 16), '=', '='] =
        [b64Val (b64Char (a / 4)) * 4 + b64Val (b64Char (a % 4 * 16)) / 16] := by
      simp [b64decode]
    rw [hd, b64Val_b64Char _ (by omega), b64Val_b64Char _ (by omega)]
    rw [show a / 4 * 4 + a % 4 * 16 / 16 = a from by omega]
  | case3 a b =>
    intro h
    have ha : a < 256 := h a (List.mem_cons_self _ _)
    have hb : b < 256 := h b (List.mem_cons_of_mem _ (List.mem_cons_self _ _))
    show b64decode [b64Char (a / 4), b64Char (a % 4 * 16 + b / 16), b64Char (b % 16 * 4), '='] =
      [a, b]
    have hd : b64decode
        [b64Char (a / 4), b64Char (a % 4 * 16 + b / 16), b64Char (b % 16 * 4), '='] =
        [b64Val (b64Char (a / 4)) * 4 + b64Val (b64Char (a % 4 * 16 + b / 16)) / 16,
         b64Val (b64Char (a % 4 * 16 + b / 16)) % 16 * 16 + b64Val (b64Char (b % 16 * 4)) / 4] := by
      simp [b64decode, b64Char_ne_pad (b % 16 * 4) (by omega)]
    rw [hd, b64Val_b64Char _ (by omega), b64Val_b64Char _ (by omega),
      b64Val_b64Char _ (by omega)]
    rw [show a / 4 * 4 + (a % 4 * 16 + b / 16) / 16 = a from by omega]
    rw [show (a % 4 * 16 + b / 16) % 16 * 16 + b % 16 * 4 / 4 = b from by omega]
  | case4 a b c' rest ih =>
    intro h
    have ha : a < 256 := h a (List.mem_cons_self _ _)
    have hb : b < 256 := h b (List.mem_cons_of_mem _ (List.mem_cons_self _ _))
    have hc : c' < 256 :=
      h c' (List.mem_cons_of_mem _ (List.mem_cons_of_mem _ (List.mem_cons_self _ _)))
    have hrest : ∀ x ∈ rest, x < 256 := fun x hx =>
      h x (List.mem_cons_of_mem _ (List.mem_cons_of_mem _ (List.mem_cons_of_mem _ hx)))
    show b64decode (b64Char (a / 4) :: b64Char (a % 4 * 16 + b / 16) ::
        b64Char (b % 16 * 4 + c' / 64) :: b64Char (c' % 64) :: b64encode rest) = a :: b :: c' :: rest
    have hd : b64decode (b64Char (a / 4) :: b64Char (a % 4 * 16 + b / 16) ::
        b64Char (b % 16 * 4 + c' / 64) :: b64Char (c' % 64) :: b64encode rest) =
        (b64Val (b64Char (a / 4)) * 4 + b64Val (b64Char (a % 4 * 16 + b / 16)) / 16) ::
        (b64Val (b64Char (a % 4 * 16 + b / 16)) % 16 * 16 +
          b64Val (b64Char (b % 16 * 4 + c' / 64)) / 4) ::
        (b64Val (b64Char (b % 16 * 4 + c' / 64)) % 4 * 64 + b64Val (b64Char (c' % 64))) ::
        b64decode (b64encode rest) := by
      simp [b64decode, b64Char_ne_pad (b % 16 * 4 + c' / 64) (by omega),
        b64Char_ne_pad (c' % 64) (by omega)]
    rw [hd, ih hrest, b64Val_b64Char _ (by omega), b64Val_b64Char _ (by omega),
      b64Val_b64Char _ (by omega), b64Val_b64Char _ (by omega)]
    rw [show a / 4 * 4 + (a % 4 * 16 + b / 16) / 16 = a from by omega]
    rw [show (a % 4 * 16 + b / 16) % 16 * 16 + (b % 16 * 4 + c' / 64) / 4 = b from by omega]
    rw [show (b % 16 * 4 + c' / 64) % 4 * 64 + c' % 64 = c' from by omega]

theorem char_toNat_lt (c : Char) : c.toNat < 1114112 := by
  have h := c.valid
  show c.val.toNat < 1114112
  rcases h with h | h
  · omega
  · omega

theorem utf8Bytes_lt (c : Char) : ∀ b ∈ utf8Bytes c, b < 256 := by
  intro b hb
  have hlt := char_toNat_lt c
  unfold utf8Bytes at hb
  by_cases h1 : c.toNat < 128
  · rw [if_pos h1] at hb
    rw [List.mem_singleton] at hb
    omega
  · rw [if_neg h1] at hb
    by_cases h2 : c.toNat < 2048
    · rw [if_pos h2] at hb
      rw [List.mem_cons, List.mem_singleton] at hb
      rcases hb with hb | hb <;> omega
    · rw [if_neg h2] at hb
      by_cases h3 : c.toNat < 65536
      · rw [if_pos h3] at hb
        rw [List.mem_cons, List.mem_cons, List.mem_singleton] at hb
        rcases hb with hb | hb | hb <;> omega
      · rw [if_neg h3] at hb
        rw [List.mem_cons, List.mem_cons, List.mem_cons, List.mem_singleton] at hb
        rcases hb with hb | hb | hb | hb <;> omega

theorem utf8Encode_lt (v : PyStr) : ∀ b ∈ utf8Encode v, b < 256 := by
  induction v with
  | nil => intro b hb; simp [utf8Encode] at hb
  | cons c t ih =>
    intro b hb
    rw [show utf8Encode (c :: t) = utf8Bytes c ++ utf8Encode t from rfl,
      List.mem_append] at hb
    rcases hb with hb | hb
    · exact utf8Bytes_lt c b hb
    · exact ih b hb

/-- Claim C2 (corrected): resume chaining.  For every generation whose
title, timestamp and resolved motifs contain no `---` substring and draw
their characters from the modelled emitter range (`ValOk`), and whose seed
is a genuine byte list, resuming from the generated document with no motif
override calls the generator with exactly the original seed bytes (the
stored text encoding decodes back to them) and exactly the original motif
list. -/
theorem resume_chaining (now now2 title input_text argsInput : PyStr)
    (key_motifs : Option (List PyStr)) (convergence argsConv : Option ℚ)
    (pie_seed : Option (List Nat))
    (hT : ValOk title = true) (hN : ValOk now = true)
    (hkm : ∀ m ∈ resolveMotifs input_text key_motifs, ValOk m = true)
    (hbs : ∀ b ∈ resolveSeed title input_text (resolveMotifs input_text key_motifs) pie_seed,
      b < 256) :
    resume_from (some (generate_srec now title input_text key_motifs convergence pie_seed).1)
        [] argsInput none argsConv now2 =
      some (generate_srec now2 (strL "Continued: " ++ title) argsInput
        (some (generate_srec now title input_text key_motifs convergence pie_seed).2.2)
        argsConv
        (some (resolveSeed title input_text (resolveMotifs input_text key_motifs) pie_seed))) := by
  set cv : ℚ := (match convergence with
      | none => compute_convergence (splitWs input_text).length
          (resolveMotifs input_text key_motifs).length (95/100)
      | some c => c) with hcv
  have hdoc : (generate_srec now title input_text key_motifs convergence pie_seed).1 =
      strL "---\n" ++ yamlDumpAssoc
        [(strL "title", .str title), (strL "date", .str now),
         (strL "version", .str (strL "3.1")),
         (strL "convergence", .str (strL "η ≈ " ++ fmt2dp cv)),
         (strL "pie_vector", .str (b64encode (resolveSeed title input_text
           (resolveMotifs input_text key_motifs) pie_seed))),
         (strL "key_motifs", .list (resolveMotifs input_text key_motifs)),
         (strL "srt_mode", .bool true),
         (strL "input_length",
          .nat (if !input_text.isEmpty then (splitWs input_text).length else 0))] ++
        (strL "---\n\n" ++
          (gen_body (gen_sections input_text (resolveMotifs input_text key_motifs)) ++
            (strL "\n\n## Iterative Progression Trace\n" ++ gen_trace cv))) := by
    simp [generate_srec, gen_metadata, List.append_assoc, ← hcv]
  have hkm2 : (generate_srec now title input_text key_motifs convergence pie_seed).2.2 =
      resolveMotifs input_text key_motifs := by
    simp [generate_srec]
  rw [hkm2]
  unfold resume_from
  rw [hdoc]
  simp only [load_srec]
  rw [parse_srec_generated title now cv
    (resolveSeed title input_text (resolveMotifs input_text key_motifs) pie_seed)
    (resolveMotifs input_text key_motifs)
    (if !input_text.isEmpty then (splitWs input_text).length else 0)
    _ hT hN hkm]
  simp only [Except.toOption]
  rw [show b64decode (b64encode (resolveSeed title input_text
      (resolveMotifs input_text key_motifs) pie_seed)) =
    resolveSeed title input_text (resolveMotifs input_text key_motifs) pie_seed
    from b64decode_b64encode _ hbs]
  rfl

/-- Witness for claim C2 at a concrete generation and resume. -/
theorem resume_chaining_witness :
    ValOk (strL "Field Log") = true ∧ ValOk (strL "2025-06-02 09:15 ") = true ∧
    (∀ m ∈ resolveMotifs (strL "delta echo delta echo delta") none, ValOk m = true) ∧
    (∀ b ∈ resolveSeed (strL "Field Log") (strL "delta echo delta echo delta")
        (resolveMotifs (strL "delta echo delta echo delta") none) (some [1, 2, 3]), b < 256) ∧
    resume_from (some (generate_srec (strL "2025-06-02 09:15 ") (strL "Field Log")
        (strL "delta echo delta echo delta") none none (some [1, 2, 3])).1)
        [] (strL "next input") none none (strL "2025-06-03 09:15 ") =
      some (generate_srec (strL "2025-06-03 09:15 ")
        (strL "Continued: " ++ strL "Field Log") (strL "next input")
        (some (generate_srec (strL "2025-06-02 09:15 ") (strL "Field Log")
          (strL "delta echo delta echo delta") none none (some [1, 2, 3])).2.2)
        none (some (resolveSeed (strL "Field Log") (strL "delta echo delta echo delta")
          (resolveMotifs (strL "delta echo delta echo delta") none) (some [1, 2, 3])))) :=
  ⟨by decide, by decide, by decide, by decide,
    resume_chaining (strL "2025-06-02 09:15 ") (strL "2025-06-03 09:15 ") (strL "Field Log")
      (strL "delta echo delta echo delta") (strL "next input") none none none (some [1, 2, 3])
      (by decide) (by decide) (by decide) (by decide)⟩

/-- Claim C2 counterexample: generating with title `c---d` and seed bytes
`[1, 2, 3]`, the document still loads when resumed, but the stored seed text
decodes to `[]` (not the bytes originally encoded) and the motif list decodes
to `[]` (not the original motifs) — the title's collision with the `---`
delimiter truncated the frontmatter. -/
theorem resume_chaining_cex :
    (load_srec (some (generate_srec (strL "2025-06-01 10:30 ") (strL "c---d")
        (strL "alpha beta") none none (some [1, 2, 3])).1)).map
      (fun l => (b64decode l.pie_vector, l.key_motifs)) = some ([], []) := by
  with_unfolding_all decide
